import Mathlib

/-!
# Verification of the zync client-side synchronization engine

A shallow embedding of the sync engine (pending-change queue, pull/merge
reconciliation, push dispatch, persistence partialize/merge, bulk first
load) and proofs of the specification claims about it.

Modelling conventions, shared by every definition below:

* A JavaScript object is an association list `List (String × Val)` whose
  lookup returns the first entry for a key; object spread of `a` then `b`
  keeps the key order of `a`, lets `b` win on common keys and appends the
  new keys of `b`, which is exactly JS enumeration-order semantics.
* Field values are the inductive `Val` (strings, numbers, booleans); an
  absent property is `Option.none`.  Timestamps (ISO date strings in the
  source) are represented as numeric milliseconds (`Val.vnum`); `new Date`
  applied to a non-numeric value yields an invalid date whose comparisons
  are all false, which the model renders as `none`.
* JS truthiness is the `truthy` predicate: absent, empty string, `0` and
  `false` are falsy.
* Asynchronous collaborator calls are parameters: the pull gets the
  already-fetched `serverData` list, the push gets the api call results,
  the first load gets the page returned by each successive call.
-/

namespace Zync

/-- A JavaScript field value: string, number (also used for timestamps,
in milliseconds) or boolean. -/
inductive Val where
  | vstr : String → Val
  | vnum : Int → Val
  | vbool : Bool → Val
  deriving DecidableEq, Repr

/-- A JavaScript object: association list, first entry for a key wins. -/
abbrev Obj := List (String × Val)

/-- Property read of key `k`: the first entry with key `k`. -/
def kvGet {α : Type} (l : List (String × α)) (k : String) : Option α :=
  (l.find? (fun p => p.1 == k)).map (·.2)

/-- The JS `in` test for key `k`. -/
def kvHas {α : Type} (l : List (String × α)) (k : String) : Bool :=
  (kvGet l k).isSome

/-- The JS `delete` of key `k`. -/
def kvErase {α : Type} (l : List (String × α)) (k : String) : List (String × α) :=
  l.filter (fun p => !(p.1 == k))

/-- Assignment of `v` at key `k`: replaces the value in place when the key
exists (JS keeps the key's enumeration position), otherwise appends. -/
def kvSet {α : Type} (l : List (String × α)) (k : String) (v : α) : List (String × α) :=
  if kvHas l k then l.map (fun p => if p.1 == k then (k, v) else p) else l ++ [(k, v)]

/-- Object spread of `a` then `b`: the keys of `a` in order with the values
of `b` winning, then the keys of `b` not in `a`. -/
def kvSpread {α : Type} (a b : List (String × α)) : List (String × α) :=
  a.map (fun p => match kvGet b p.1 with | some v => (p.1, v) | none => p)
    ++ b.filter (fun p => !(kvHas a p.1))

/-- JS truthiness of a possibly-absent value. -/
def truthy : Option Val → Bool
  | none => false
  | some (Val.vstr s) => !(s == "")
  | some (Val.vnum n) => !(n == 0)
  | some (Val.vbool b) => b

/-- `new Date` of a value as a millisecond timestamp: numeric values parse,
anything else is an invalid date (`none`) whose comparisons are all false. -/
def dateOf : Option Val → Option Int
  | some (Val.vnum n) => some n
  | _ => none

/-!
## Data model

`SyncAction`, `PendingChange`, `Conflict` and `FieldConflict` are the queue
and conflict-tracker types of the engine (the Create/Update/Remove action
variant used by the current queue, pull and push modules).
-/

/-- The kind of an outstanding local mutation. -/
inductive SyncAction where
  | create
  | update
  | remove
  deriving DecidableEq, Repr

/-- One outstanding local mutation awaiting server confirmation. -/
structure PendingChange where
  action : SyncAction
  stateKey : String
  localId : String
  id : Option Val := none
  version : Nat := 1
  changes : Obj := []
  before : Obj := []
  after : Obj := []
  deriving DecidableEq, Repr

/-- One field on which local and remote disagree.  The remote value is read
off the remote record, hence an `Option` (the recording site only produces
entries whose key is present remotely). -/
structure FieldConflict where
  key : String
  localValue : Val
  remoteValue : Option Val
  deriving DecidableEq, Repr

/-- The conflict-tracker entry for one local identity. -/
structure Conflict where
  stateKey : String
  fields : List FieldConflict
  deriving DecidableEq, Repr

/-!
## Queue helpers

Translations of the helper module: `omitSyncFields`, the queue lookups and
mutations, and the coalescing insert `tryAddToPendingChanges`.  The JS code
mutates the found queue entry in place; the model rewrites the first entry
matching the same predicate, which is the entry `find` returned.
-/

/-- Strips the sync-internal fields before a payload is stored or sent. -/
def omitSyncFields (o : Obj) : Obj :=
  kvErase (kvErase (kvErase o "_localId") "updated_at") "deleted"

/-- `omitSyncFields` applied to a possibly-null object: the spread of `null`
is the empty object. -/
def omitSyncFieldsOpt : Option Obj → Obj
  | some o => omitSyncFields o
  | none => []

/-- The queue-entry predicate `p.localId === localId && p.stateKey === stateKey`. -/
def matchesChange (stateKey localId : String) (p : PendingChange) : Bool :=
  p.localId == localId && p.stateKey == stateKey

/-- In-place mutation of the entry `find` returned: rewrite the first entry
satisfying `pred`. -/
def updateFirst (l : List PendingChange) (pred : PendingChange → Bool)
    (f : PendingChange → PendingChange) : List PendingChange :=
  match l with
  | [] => []
  | x :: xs => if pred x then f x :: xs else x :: updateFirst xs pred f

/-- Drops the queue entry for `(stateKey, localId)`. -/
def removeFromPendingChanges (q : List PendingChange) (localId stateKey : String) :
    List PendingChange :=
  q.filter (fun p => !(matchesChange stateKey localId p))

/-- Whether the current queue entry for the pair still has version `version`
(`curChange?.version === version`; no entry compares as false). -/
def samePendingVersion (q : List PendingChange) (stateKey localId : String)
    (version : Nat) : Bool :=
  match q.find? (matchesChange stateKey localId) with
  | some p => p.version == version
  | none => false

/-- Forces the pair's queue entry to an Update, adopting the id when one is
given (`if (id) change.id = id`, a truthiness test). -/
def setPendingChangeToUpdate (q : List PendingChange) (stateKey localId : String)
    (idv : Option Val) : List PendingChange :=
  updateFirst q (matchesChange stateKey localId)
    (fun p => { p with action := SyncAction.update, id := if truthy idv then idv else p.id })

/-- Merges `beforeObj` into the pair's queue entry's before-snapshot. -/
def setPendingChangeBefore (q : List PendingChange) (stateKey localId : String)
    (beforeObj : Obj) : List PendingChange :=
  updateFirst q (matchesChange stateKey localId)
    (fun p => { p with before := kvSpread p.before beforeObj })

/-- Whether the conflict tracker holds an entry for this local identity. -/
def hasConflicts (conflicts : List (String × Conflict)) (localId : String) : Bool :=
  (kvGet conflicts localId).isSome

/-- One record of the change-diff engine's output map: the previous item
(null for additions), the next item (null for removals), the field diff
(null for removals) and the known server id. -/
structure ChangeRecord where
  currentItem : Option Obj
  updatedItem : Option Obj
  changes : Option Obj
  id : Option Val
  deriving DecidableEq, Repr

/-- The action classification of one change record. -/
def crAction (cr : ChangeRecord) : SyncAction :=
  if cr.updatedItem == none then SyncAction.remove
  else if cr.currentItem == none then SyncAction.create
  else SyncAction.update

/-- The in-place mutation of an existing queue entry by one further change
record: version bump, then either the escalation to Remove or the payload
merge (nothing further when the omitted diff is empty). -/
def tryAddUpd (change : ChangeRecord) (p : PendingChange) : PendingChange :=
  let omittedChanges0 := omitSyncFieldsOpt change.changes
  let omittedUpdatedItem := omitSyncFieldsOpt change.updatedItem
  let hasChanges := !omittedChanges0.isEmpty
  let action := crAction change
  let omittedChanges :=
    if action == SyncAction.update && change.updatedItem.isSome && change.currentItem.isSome
        && !(kvGet (change.currentItem.getD []) "_localId"
              == kvGet (change.updatedItem.getD []) "_localId") then
      omittedUpdatedItem
    else omittedChanges0
  let p := { p with version := p.version + 1 }
  if action == SyncAction.remove then
    { p with action := SyncAction.remove }
  else if hasChanges then
    { p with changes := kvSpread p.changes omittedChanges,
             after := kvSpread p.after omittedUpdatedItem }
  else p

/-- One iteration of the coalescing insert, for the entry `(localId, change)`
of the diff map. -/
def tryAddStep (stateKey : String) (pending : List PendingChange)
    (entry : String × ChangeRecord) : List PendingChange :=
  let localId := entry.1
  let change := entry.2
  let omittedChanges0 := omitSyncFieldsOpt change.changes
  let omittedCurrentItem := omitSyncFieldsOpt change.currentItem
  let omittedUpdatedItem := omitSyncFieldsOpt change.updatedItem
  let queueItem := pending.find? (matchesChange stateKey localId)
  let hasChanges := !omittedChanges0.isEmpty
  let action := crAction change
  let omittedChanges :=
    if action == SyncAction.update && change.updatedItem.isSome && change.currentItem.isSome
        && !(kvGet (change.currentItem.getD []) "_localId"
              == kvGet (change.updatedItem.getD []) "_localId") then
      omittedUpdatedItem
    else omittedChanges0
  match queueItem with
  | some qi =>
    if qi.action == SyncAction.remove then
      pending
    else
      updateFirst pending (matchesChange stateKey localId) (tryAddUpd change)
  | none =>
    if action == SyncAction.remove || hasChanges then
      pending ++ [{ action := action, stateKey := stateKey, localId := localId,
                    id := change.id, version := 1, changes := omittedChanges,
                    before := omittedCurrentItem, after := omittedUpdatedItem }]
    else pending

/-- The coalescing insert over a whole diff map (map iteration order is
insertion order). -/
def tryAddToPendingChanges (pending : List PendingChange) (stateKey : String)
    (changes : List (String × ChangeRecord)) : List PendingChange :=
  changes.foldl (tryAddStep stateKey) pending

/-!
## Pull reconciler

The pull: fetch everything updated after the watermark, then one atomic
state transition folding over the returned records.  `serverData` is the
already-fetched list; `freshId` supplies the ids `createLocalId` would
generate, indexed by how many have been drawn this pull.
-/

/-- State touched by a pull of one collection: that collection's items, the
queue, the conflict tracker and the per-collection watermark map. -/
structure PullState where
  items : List Obj
  pendingChanges : List PendingChange
  conflicts : List (String × Conflict)
  lastPulled : List (String × Int)
  deriving DecidableEq, Repr

/-- The pull loop's running accumulator. -/
structure PullAcc where
  nextItems : List Obj
  pendingChanges : List PendingChange
  conflicts : List (String × Conflict)
  newest : Int
  freshCount : Nat
  deriving DecidableEq, Repr

/-- Watermark tracking: adopt the record's timestamp when it parses and is
strictly newer (an invalid date compares false and is ignored). -/
def bumpNewest (newest : Int) (remote : Obj) : Int :=
  match dateOf (kvGet remote "updated_at") with
  | some t => if newest < t then t else newest
  | none => newest

/-- The `localById` map lookup: entries are the items with a truthy id, and
a `Map` built from a list keeps the last entry per key. -/
def lookupById (items : List Obj) (idv : Option Val) : Option Obj :=
  ((items.filter (fun l => truthy (kvGet l "id"))).reverse).find?
    (fun l => kvGet l "id" == idv)

/-- The ids of the queue's pending Removes for this collection (the
resurrection guard set). -/
def pendingRemovalIds (pcs : List PendingChange) (stateKey : String) : List (Option Val) :=
  (pcs.filter (fun p => p.stateKey == stateKey && p.action == SyncAction.remove)).map (·.id)

/-- The queue lookup `p.stateKey === stateKey && p.localId === localItem._localId`. -/
def pendingFor (stateKey : String) (li : Obj) (p : PendingChange) : Bool :=
  p.stateKey == stateKey && (some (Val.vstr p.localId) == kvGet li "_localId")

/-- An object literal ending in a `_localId:` property whose value is read
off another record.  A missing source `_localId` is modelled as omitting the
property (the call sites reach this only after a queue lookup that equated
it with a string). -/
def withLocalId (o : Obj) (lv : Option Val) : Obj :=
  match lv with
  | some v => kvSpread o [("_localId", v)]
  | none => kvSpread o []

/-- try-shallow-merge, step one: the fields both sides changed, to different
values, judged against the before-snapshot. -/
def conflictFields (pc : PendingChange) (remote : Obj) : List FieldConflict :=
  (pc.changes.filter (fun p =>
      kvHas pc.before p.1 && kvHas remote p.1
        && !(kvGet pc.before p.1 == kvGet remote p.1)
        && !(some p.2 == kvGet remote p.1))).map
    (fun p => { key := p.1, localValue := p.2, remoteValue := kvGet remote p.1 })

/-- try-shallow-merge, step two: the locally-touched fields whose current
local values survive the merge, headed by the preserved `_localId`. -/
def preservedLocal (pc : PendingChange) (li : Obj) : Obj :=
  ("_localId", Val.vstr pc.localId) ::
    pc.changes.filterMap (fun p => (kvGet li p.1).map (fun v => (p.1, v)))

/-- try-shallow-merge, step three: remote values overlaid with the preserved
local fields. -/
def shallowMerged (pc : PendingChange) (li : Obj) (remote : Obj) : Obj :=
  kvSpread remote (preservedLocal pc li)

/-- The body of one pull-loop iteration, after the watermark update: the
resurrection skip, the soft-delete drop, and the merge with its conflict
switch (whose cases match the literal case labels of the source).
`localItems` and `pendingRemoval` are the `localById` source and the
pending-Remove id set, both computed once from the pre-pull state. -/
def pullStepBody (strategy stateKey : String) (localItems : List Obj)
    (pendingRemoval : List (Option Val)) (freshId : Nat → String)
    (acc : PullAcc) (remote : Obj) : PullAcc :=
  if pendingRemoval.contains (kvGet remote "id") then acc
  else
    let localItem := lookupById localItems (kvGet remote "id")
    if truthy (kvGet remote "deleted") then
      match localItem with
      | some _ =>
        { acc with nextItems :=
            acc.nextItems.filter (fun i => !(kvGet i "id" == kvGet remote "id")) }
      | none => acc
    else
      let remote := kvErase remote "deleted"
      match localItem with
      | some li =>
        match acc.pendingChanges.find? (pendingFor stateKey li) with
        | some pc =>
          if strategy == "client-wins" then acc
          else if strategy == "server-wins" then
            let merged := withLocalId remote (kvGet li "_localId")
            { acc with
              nextItems := acc.nextItems.map
                (fun i => if kvGet i "_localId" == kvGet li "_localId" then merged else i),
              pendingChanges := acc.pendingChanges.filter (fun p => !(pendingFor stateKey li p)) }
          else if strategy == "try-shallow-merge" then
            let fields := conflictFields pc remote
            if !fields.isEmpty then
              let conf : Conflict := { stateKey := stateKey, fields := fields }
              { acc with conflicts := kvSet acc.conflicts pc.localId conf }
            else
              let merged := shallowMerged pc li remote
              { acc with
                nextItems := acc.nextItems.map
                  (fun i => if kvGet i "_localId" == kvGet li "_localId" then merged else i),
                conflicts := kvErase acc.conflicts pc.localId }
          else acc
        | none =>
          let merged := kvSpread li remote
          { acc with
            nextItems := acc.nextItems.map
              (fun i => if kvGet i "_localId" == kvGet li "_localId" then merged else i) }
      | none =>
        { acc with
          nextItems := acc.nextItems
            ++ [kvSpread remote [("_localId", Val.vstr (freshId acc.freshCount))]],
          freshCount := acc.freshCount + 1 }

/-- One iteration of the pull loop, for one remote record: track the newest
timestamp seen, then run the body. -/
def pullStep (strategy stateKey : String) (localItems : List Obj)
    (pendingRemoval : List (Option Val)) (freshId : Nat → String)
    (acc : PullAcc) (remote : Obj) : PullAcc :=
  pullStepBody strategy stateKey localItems pendingRemoval freshId
    { acc with newest := bumpNewest acc.newest remote } remote

/-- The pull of one collection: no-op on an empty fetch, otherwise one fold
over the batch followed by the watermark write-back. -/
def pull (strategy stateKey : String) (freshId : Nat → String)
    (st : PullState) (serverData : List Obj) : PullState :=
  let lastPulledAt : Int := (kvGet st.lastPulled stateKey).getD 0
  if serverData.isEmpty then st
  else
    let acc := serverData.foldl
      (pullStep strategy stateKey st.items (pendingRemovalIds st.pendingChanges stateKey) freshId)
      { nextItems := st.items, pendingChanges := st.pendingChanges,
        conflicts := st.conflicts, newest := lastPulledAt, freshCount := 0 }
    { items := acc.nextItems, pendingChanges := acc.pendingChanges,
      conflicts := acc.conflicts,
      lastPulled := kvSpread st.lastPulled [(stateKey, acc.newest)] }

/-!
## Push dispatcher

`pushOne` dispatches one queue entry.  The collaborator call results are
parameters (`updateResult`, `addResult`); the calls made are recorded in
`PushEffects` so that no-network-call claims are statable.  The injected
`setAndQueueToSync` callback of the insert-remote-record branch is the
`queueToSync` parameter.
-/

/-- The collaborator calls one dispatch performed. -/
structure PushEffects where
  removeCalls : List Val := []
  updateCalls : List (Option Val × Obj × Obj) := []
  addCalls : List Obj := []
  deriving DecidableEq, Repr

/-- The store state a dispatch touches: the entry's collection, the queue
and the conflict tracker. -/
structure PushState where
  items : List Obj
  pendingChanges : List PendingChange
  conflicts : List (String × Conflict)
  deriving DecidableEq, Repr

structure PushResult where
  state : PushState
  effects : PushEffects
  deriving DecidableEq, Repr

/-- Dispatch of one pending change, per action kind. -/
def pushOne (st : PushState) (change : PendingChange)
    (updateResult : Bool) (addResult : Option Obj)
    (missingStrategy : String) (freshLocalId : String) (now : Int)
    (queueToSync : PushState → PushState) : PushResult :=
  match change.action with
  | SyncAction.remove =>
    if !(truthy change.id) then
      { state := { st with pendingChanges :=
          removeFromPendingChanges st.pendingChanges change.localId change.stateKey },
        effects := {} }
    else
      { state := { st with pendingChanges :=
          removeFromPendingChanges st.pendingChanges change.localId change.stateKey },
        effects := { removeCalls := change.id.toList } }
  | SyncAction.update =>
    if hasConflicts st.conflicts change.localId then
      { state := st, effects := {} }
    else
      let callEffects : PushEffects :=
        { updateCalls := [(change.id, change.changes, change.after)] }
      if updateResult then
        if samePendingVersion st.pendingChanges change.stateKey change.localId change.version then
          { state := { st with pendingChanges :=
              removeFromPendingChanges st.pendingChanges change.localId change.stateKey },
            effects := callEffects }
        else
          let q := setPendingChangeBefore st.pendingChanges change.stateKey change.localId
            change.changes
          { state := { st with pendingChanges := q }, effects := callEffects }
      else
        match st.items.find?
            (fun i => kvGet i "_localId" == some (Val.vstr change.localId)) with
        | none =>
          { state := { st with pendingChanges :=
              removeFromPendingChanges st.pendingChanges change.localId change.stateKey },
            effects := callEffects }
        | some item =>
          let st :=
            if missingStrategy == "delete-local-record" then
              { st with
                items := st.items.filter
                  (fun i => !(kvGet i "_localId" == some (Val.vstr change.localId))) }
            else if missingStrategy == "insert-remote-record" then
              let newItem := kvSpread item
                [("_localId", Val.vstr freshLocalId), ("updated_at", Val.vnum now)]
              let mapped := st.items.map
                (fun i => if kvGet i "_localId" == some (Val.vstr change.localId)
                          then newItem else i)
              queueToSync { st with items := mapped }
            else st
          { state := { st with pendingChanges :=
              removeFromPendingChanges st.pendingChanges change.localId change.stateKey },
            effects := callEffects }
  | SyncAction.create =>
    let callEffects : PushEffects := { addCalls := [change.changes] }
    match addResult with
    | some result =>
      let mapped := st.items.map
        (fun i => if kvGet i "_localId" == some (Val.vstr change.localId)
                  then kvSpread i result else i)
      let st := { st with items := mapped }
      let st :=
        if samePendingVersion st.pendingChanges change.stateKey change.localId change.version then
          { st with pendingChanges :=
              removeFromPendingChanges st.pendingChanges change.localId change.stateKey }
        else
          let q := setPendingChangeToUpdate st.pendingChanges change.stateKey change.localId
            (kvGet result "id")
          { st with pendingChanges := q }
      { state := st, effects := callEffects }
    | none =>
      if samePendingVersion st.pendingChanges change.stateKey change.localId change.version then
        { state := { st with pendingChanges :=
            removeFromPendingChanges st.pendingChanges change.localId change.stateKey },
          effects := callEffects }
      else
        { state := st, effects := callEffects }

/-!
## Persistence: partialize, hydration merge

The per-field `Option` mirrors property presence on the persisted JS object:
`partialize` writes exactly three sync keys, the hydration `merge` spreads
the persisted image over the current state (the persisted `syncState` key is
always present, so it wholly replaces the in-memory one) and then forces
`status` to idle.
-/

/-- The engine's `syncState` slice as a JS object: each field present or
absent. -/
structure SyncStateObj where
  status : Option String := none
  enabled : Option Bool := none
  firstLoadDone : Option Bool := none
  pendingChanges : Option (List PendingChange) := none
  lastPulled : Option (List (String × Int)) := none
  conflicts : Option (List (String × Conflict)) := none
  error : Option String := none
  deriving DecidableEq, Repr

/-- The whole store: the user's collection keys plus `syncState`. -/
structure StoreState where
  collections : List (String × List Obj)
  syncState : SyncStateObj
  deriving DecidableEq, Repr

/-- Selects the state to be persisted: the user keys, and of `syncState`
only `firstLoadDone`, `pendingChanges` and `lastPulled`. -/
def partialize (s : StoreState) : StoreState :=
  { collections := s.collections,
    syncState := { firstLoadDone := s.syncState.firstLoadDone,
                   pendingChanges := s.syncState.pendingChanges,
                   lastPulled := s.syncState.lastPulled } }

/-- The hydration merge: shallow spread where persisted keys win, then
`status` set to idle to confirm hydrating is done. -/
def mergeHydrate (persisted current : StoreState) : StoreState :=
  let state : StoreState :=
    { collections := kvSpread current.collections persisted.collections,
      syncState := persisted.syncState }
  { state with syncState := { state.syncState with status := some "idle" } }

/-- A full storage round-trip: persist `s`, then hydrate over `current`. -/
def storageRoundTrip (s current : StoreState) : StoreState :=
  mergeHydrate (partialize s) current

/-!
## First load

The bulk bootstrap of one collection: batches fetched by a cursor call until
an empty page, each batch merged in one state transition, with the
duplicate-cursor guard.  `pages n` is the n-th collaborator call's page;
`fuel` bounds the modelled run, `outOfFuel` standing for a run that has not
returned within that bound.
-/

/-- The slice of state one collection's first load touches. -/
structure FLState where
  items : List Obj
  lastPulled : Option Int
  freshCount : Nat
  deriving DecidableEq, Repr

/-- Watermark tracking in the first load: `new Date(remote.updated_at || 0)`,
a falsy timestamp reading as epoch zero. -/
def flBumpNewest (newest : Int) (remote : Obj) : Int :=
  let t := if truthy (kvGet remote "updated_at") then dateOf (kvGet remote "updated_at")
           else some 0
  match t with
  | some t' => if newest < t' then t' else newest
  | none => newest

/-- `next[idx] = merged` at the first index matching the predicate. -/
def replaceFirst (l : List Obj) (pred : Obj → Bool) (x : Obj) : List Obj :=
  match l with
  | [] => []
  | y :: ys => if pred y then x :: ys else y :: replaceFirst ys pred x

/-- One remote record of a first-load batch merged into the accumulator
(items so far, newest timestamp, fresh-id counter). -/
def flMergeItem (localItems : List Obj) (freshId : Nat → String)
    (acc : List Obj × Int × Nat) (remote : Obj) : List Obj × Int × Nat :=
  let next := acc.1
  let newest := flBumpNewest acc.2.1 remote
  let cnt := acc.2.2
  if truthy (kvGet remote "deleted") then (next, newest, cnt)
  else
    let remote := kvErase remote "deleted"
    let localItem :=
      if truthy (kvGet remote "id") then lookupById localItems (kvGet remote "id") else none
    match localItem with
    | some li =>
      let merged := withLocalId (kvSpread li remote) (kvGet li "_localId")
      (replaceFirst next (fun i => kvGet i "_localId" == kvGet li "_localId") merged,
        newest, cnt)
    | none =>
      (next ++ [kvSpread remote [("_localId", Val.vstr (freshId cnt))]], newest, cnt + 1)

/-- One batch merged as a single state transition. -/
def flMergeBatch (freshId : Nat → String) (st : FLState) (batch : List Obj) : FLState :=
  let res := batch.foldl (flMergeItem st.items freshId)
    (st.items, st.lastPulled.getD 0, st.freshCount)
  { items := res.1, lastPulled := some res.2.1, freshCount := res.2.2 }

/-- The outcome of one collection's first-load loop within the fuel bound. -/
inductive FLOutcome where
  | done : FLState → FLOutcome
  | failed : FLState → String → FLOutcome
  | outOfFuel : FLOutcome
  deriving DecidableEq, Repr

/-- The infinite-loop guard's error message. -/
def dupPageMsg : String := "Duplicate records downloaded, stopping to prevent infinite loop"

/-- The trailing cursor of a batch. -/
def flTrailingId (batch : List Obj) : Option Val :=
  match batch.getLast? with
  | some last => kvGet last "id"
  | none => none

/-- The first-load loop of one collection: stop on an empty page; merge the
batch; abort when the previous cursor is defined and equals this batch's
trailing cursor (the merge has already run, as in the source); otherwise
continue with the new cursor. -/
def flRun (pages : Nat → List Obj) (freshId : Nat → String) :
    Nat → Nat → Option Val → FLState → FLOutcome
  | 0, _, _, _ => FLOutcome.outOfFuel
  | fuel + 1, n, lastId, st =>
    let batch := pages n
    if batch.isEmpty then FLOutcome.done st
    else
      let st' := flMergeBatch freshId st batch
      if lastId.isSome && lastId == flTrailingId batch then FLOutcome.failed st' dupPageMsg
      else flRun pages freshId fuel (n + 1) (flTrailingId batch) st'

/-- The loop of `flRun` returns for some fuel bound. -/
def flTerminates (pages : Nat → List Obj) (freshId : Nat → String) (st : FLState) : Prop :=
  ∃ fuel, flRun pages freshId fuel 0 none st ≠ FLOutcome.outOfFuel

/-- What `startFirstLoad` leaves in the store. -/
structure SFLResult where
  states : List (String × FLState)
  firstLoadDone : Bool
  error : Option String
  deriving DecidableEq, Repr

/-- One collection of the `startFirstLoad` loop: run its first load, record
its final state, keep only the first error (`syncError = syncError ?? err`);
a loop that does not return within the fuel bound aborts the whole model
run (`none`), as the real call would simply not return. -/
def sflStep (freshId : Nat → String) (fuel : Nat)
    (acc : Option (List (String × FLState) × Option String))
    (col : String × (Nat → List Obj)) : Option (List (String × FLState) × Option String) :=
  match acc with
  | none => none
  | some (states, syncError) =>
    let st0 := (kvGet states col.1).getD { items := [], lastPulled := none, freshCount := 0 }
    match flRun col.2 freshId fuel 0 none st0 with
    | FLOutcome.done st' => some (kvSet states col.1 st', syncError)
    | FLOutcome.failed st' e =>
      some (kvSet states col.1 st', syncError.orElse (fun _ => some e))
    | FLOutcome.outOfFuel => none

/-- The bulk bootstrap over every registered collection, ending with the
unconditional `firstLoadDone := true` write that also records the first
error (or clears the field when none occurred). -/
def startFirstLoad (freshId : Nat → String) (fuel : Nat)
    (cols : List (String × (Nat → List Obj))) (init : List (String × FLState)) :
    Option SFLResult :=
  match cols.foldl (sflStep freshId fuel) (some (init, none)) with
  | some (states, syncError) =>
    some { states := states, firstLoadDone := true, error := syncError }
  | none => none

/-!
## Concrete fixtures

Example records, queues and page streams used by the closed theorems
(counterexamples and witnesses).
-/

/-- The last-write-wins union of a burst of field diffs (later diffs win). -/
def lwwUnion (ds : List Obj) : Obj := ds.foldl kvSpread []

/-- A well-formed Update change record: both snapshots present, the same
local identity on both sides (so the insert-remote-record special case does
not fire), and a non-empty omitted field diff. -/
abbrev GoodUpd (cr : ChangeRecord) : Prop :=
  cr.currentItem.isSome = true ∧ cr.updatedItem.isSome = true
    ∧ kvGet (cr.currentItem.getD []) "_localId" = kvGet (cr.updatedItem.getD []) "_localId"
    ∧ omitSyncFieldsOpt cr.changes ≠ []

/-- A deterministic local-id generator standing in for `createLocalId`. -/
def freshDemo : Nat → String := fun n => "local-" ++ toString n

/-- A local record synced as server id 1, locally edited to `local-change`. -/
def demoLocalItem : Obj :=
  [("id", Val.vnum 1), ("_localId", Val.vstr "L1"),
   ("name", Val.vstr "local-change"), ("updated_at", Val.vnum 10)]

/-- The pending Update recording that edit, with before-snapshot `srv`. -/
def demoPending : PendingChange :=
  { action := SyncAction.update, stateKey := "items", localId := "L1",
    id := some (Val.vnum 1), version := 1,
    changes := [("name", Val.vstr "local-change")],
    before := [("name", Val.vstr "srv")] }

/-- The live remote copy of the same record, edited to `remote-change`. -/
def demoRemote : Obj :=
  [("id", Val.vnum 1), ("name", Val.vstr "remote-change"), ("updated_at", Val.vnum 100)]

/-- The pre-pull store state for the conflict scenarios. -/
def demoPullState : PullState :=
  { items := [demoLocalItem], pendingChanges := [demoPending],
    conflicts := [], lastPulled := [("items", 0)] }

/-- A purely local, never-synced record (no server id). -/
def demoNeverSynced : Obj :=
  [("_localId", Val.vstr "L2"), ("name", Val.vstr "temp"), ("updated_at", Val.vnum 5)]

/-- The queue entry a never-synced add-then-remove collapses to. -/
def demoLocalRemove : PendingChange :=
  { action := SyncAction.remove, stateKey := "items", localId := "L2",
    id := none, version := 2, changes := [("name", Val.vstr "temp")],
    before := [], after := [("name", Val.vstr "temp")] }

/-- A store state whose transient fields and conflict tracker are populated. -/
def demoStore : StoreState :=
  { collections := [("items", [demoLocalItem])],
    syncState := { status := some "syncing", enabled := some true,
                   firstLoadDone := some true,
                   pendingChanges := some [demoPending],
                   lastPulled := some [("items", 42)],
                   conflicts := some [("L1", { stateKey := "items", fields := [] })],
                   error := some "boom" } }

/-- The empty first-load collection state (`state[stateKey] || []`, no
watermark, no ids drawn). -/
def flInit : FLState := { items := [], lastPulled := none, freshCount := 0 }

/-- The alternating id of the non-terminating page stream. -/
def idAlt (n : Nat) : Int := if n % 2 = 0 then 0 else 1

/-- A page stream whose trailing cursor alternates between two values: never
an empty page, never two consecutive identical cursors. -/
def pagesAlt : Nat → List Obj := fun n => [[("id", Val.vnum (idAlt n))]]

/-- A page stream that repeats the same single-record page forever: its
second page trips the duplicate-cursor guard. -/
def pagesDup : Nat → List Obj :=
  fun _ => [[("id", Val.vnum 1), ("updated_at", Val.vnum 3)]]

/-- A dispatch state whose queue holds the never-synced Remove. -/
def demoPushState : PushState :=
  { items := [], pendingChanges := [demoLocalRemove], conflicts := [] }

/-- A page stream with one non-empty page and then empty pages. -/
def pagesOnce : Nat → List Obj := fun n => if n = 0 then [[("id", Val.vnum 1)]] else []

/-- What `startFirstLoad` returns on the duplicate-cursor stream with fuel 3. -/
def demoSFLResult : SFLResult :=
  { states := [("a", { items := [[("id", Val.vnum 1), ("updated_at", Val.vnum 3),
                                  ("_localId", Val.vstr "local-0")]],
                       lastPulled := some 3, freshCount := 1 })],
    firstLoadDone := true, error := some dupPageMsg }

/-- The queue entry a fresh Update diff inserts (version 1, payloads from
the omitted snapshots). -/
def insertedUpd (sk lid : String) (cr : ChangeRecord) : PendingChange :=
  { action := SyncAction.update, stateKey := sk, localId := lid, id := cr.id,
    version := 1, changes := omitSyncFieldsOpt cr.changes,
    before := omitSyncFieldsOpt cr.currentItem,
    after := omitSyncFieldsOpt cr.updatedItem }

/-- First rapid edit: name a → b (updated_at changes are sync fields and are
omitted from the payload). -/
def demoUpdRec1 : ChangeRecord :=
  { currentItem := some [("_localId", Val.vstr "L1"), ("name", Val.vstr "a"),
                         ("updated_at", Val.vnum 1)],
    updatedItem := some [("_localId", Val.vstr "L1"), ("name", Val.vstr "b"),
                         ("updated_at", Val.vnum 2)],
    changes := some [("name", Val.vstr "b"), ("updated_at", Val.vnum 2)],
    id := some (Val.vnum 1) }

/-- Second rapid edit: name b → c. -/
def demoUpdRec2 : ChangeRecord :=
  { currentItem := some [("_localId", Val.vstr "L1"), ("name", Val.vstr "b"),
                         ("updated_at", Val.vnum 2)],
    updatedItem := some [("_localId", Val.vstr "L1"), ("name", Val.vstr "c"),
                         ("updated_at", Val.vnum 3)],
    changes := some [("name", Val.vstr "c"), ("updated_at", Val.vnum 3)],
    id := some (Val.vnum 1) }

/-- The pull accumulator at the start of the conflict scenarios. -/
def demoPullAcc : PullAcc :=
  { nextItems := [demoLocalItem], pendingChanges := [demoPending],
    conflicts := [], newest := 0, freshCount := 0 }

/-- The stored per-collection watermark (absent reads as epoch zero, as in
the source's fallback). -/
def watermark (st : PullState) (stateKey : String) : Int :=
  (kvGet st.lastPulled stateKey).getD 0

/-- The predicate selecting the local entries that carry server id `rid`. -/
def ridPred (rid : Val) (i : Obj) : Bool := kvGet i "id" == some rid

/-- The queued Remove of the resurrection-guard fixture. -/
def demoRemovePC : PendingChange :=
  { action := SyncAction.remove, stateKey := "items", localId := "L1",
    id := some (Val.vnum 1), version := 2 }

/-- Pull fixture for the resurrection guard: one synced local item whose
server id has a pending Remove queued. -/
def demoRemoveState : PullState :=
  { items := [[("id", Val.vnum 1), ("_localId", Val.vstr "L1"), ("name", Val.vstr "x")]],
    pendingChanges := [demoRemovePC],
    conflicts := [], lastPulled := [] }

/-- A batch in which the server still reports the removed record as live,
plus an unrelated fresh record. -/
def demoLiveBatch : List Obj :=
  [[("id", Val.vnum 1), ("name", Val.vstr "alive"), ("updated_at", Val.vnum 50)],
   [("id", Val.vnum 2), ("name", Val.vstr "fresh"), ("updated_at", Val.vnum 60)]]

/-!
## Theorems
-/

theorem kvGet_nil {α : Type} (k : String) : kvGet ([] : List (String × α)) k = none := rfl

theorem kvHas_nil {α : Type} (k : String) : kvHas ([] : List (String × α)) k = false := rfl

theorem kvGet_cons {α : Type} (p : String × α) (l : List (String × α)) (k : String) :
    kvGet (p :: l) k = if p.1 == k then some p.2 else kvGet l k := by
  by_cases h : p.1 == k <;> simp [kvGet, List.find?_cons, h]

theorem kvGet_append {α : Type} (a b : List (String × α)) (k : String) :
    kvGet (a ++ b) k = (kvGet a k).orElse (fun _ => kvGet b k) := by
  induction a with
  | nil => simp [kvGet]
  | cons p l ih =>
    by_cases h : p.1 == k <;>
      simp [kvGet_cons, h, ih, Option.orElse]

theorem kvGet_spread_mapPart {α : Type} (a b : List (String × α)) (k : String) :
    kvGet (a.map (fun p => match kvGet b p.1 with | some v => (p.1, v) | none => p)) k
      = match kvGet a k with
        | none => none
        | some v => some ((kvGet b k).getD v) := by
  induction a with
  | nil => simp [kvGet]
  | cons p l ih =>
    by_cases h : p.1 = k
    · subst h
      cases hb : kvGet b p.1 <;>
        simp [kvGet_cons, hb]
    · have h' : (p.1 == k) = false := by simp [h]
      cases hb : kvGet b p.1 <;>
        simpa [kvGet_cons, h', hb] using ih

theorem kvGet_spread_filterPart {α : Type} (a b : List (String × α)) (k : String) :
    kvGet (b.filter (fun q => !(kvHas a q.1))) k
      = if kvHas a k then none else kvGet b k := by
  induction b with
  | nil => simp [kvGet]
  | cons q m ih =>
    by_cases hq : kvHas a q.1
    · by_cases h : q.1 = k
      · subst h
        simpa [List.filter_cons, hq, kvGet_cons] using ih
      · have h' : (q.1 == k) = false := by simp [h]
        simpa [List.filter_cons, hq, kvGet_cons, h'] using ih
    · by_cases h : q.1 = k
      · subst h
        simp [List.filter_cons, hq, kvGet_cons]
      · have h' : (q.1 == k) = false := by simp [h]
        simpa [List.filter_cons, hq, kvGet_cons, h'] using ih

/-- Spread lookup: reading `k` from the spread of `a` then `b` yields the
value of `b` at `k` when present, else the value of `a`. -/
theorem kvGet_spread {α : Type} (a b : List (String × α)) (k : String) :
    kvGet (kvSpread a b) k = (kvGet b k).orElse (fun _ => kvGet a k) := by
  unfold kvSpread
  rw [kvGet_append, kvGet_spread_mapPart, kvGet_spread_filterPart]
  cases ha : kvGet a k with
  | none =>
    have hh : kvHas a k = false := by simp [kvHas, ha]
    cases hb : kvGet b k <;> simp [hh, Option.orElse]
  | some v =>
    have hh : kvHas a k = true := by simp [kvHas, ha]
    cases hb : kvGet b k <;> simp [hh, Option.orElse]

theorem kvGet_erase_self {α : Type} (l : List (String × α)) (k : String) :
    kvGet (kvErase l k) k = none := by
  induction l with
  | nil => simp [kvErase, kvGet]
  | cons p m ih =>
    by_cases hp : p.1 = k
    · simpa [kvErase, List.filter_cons, hp] using ih
    · have hp' : (p.1 == k) = false := by simp [hp]
      simpa [kvErase, List.filter_cons, hp', kvGet_cons] using ih

theorem kvGet_erase_ne {α : Type} (l : List (String × α)) (k k' : String) (h : k ≠ k') :
    kvGet (kvErase l k') k = kvGet l k := by
  induction l with
  | nil => simp [kvErase]
  | cons p m ih =>
    obtain ⟨a, w⟩ := p
    by_cases ha : a = k'
    · have h1 : (a == k') = true := by simp [ha]
      have h2 : (a == k) = false := by
        simp only [beq_eq_false_iff_ne, ne_eq]
        intro hc
        exact h (hc ▸ ha)
      simpa [kvErase, List.filter_cons, kvGet_cons, h1, h2] using ih
    · have ha' : (a == k') = false := by simp [ha]
      by_cases hk : a = k
      · simp [kvErase, List.filter_cons, ha', kvGet_cons, hk, h]
      · have hk' : (a == k) = false := by simp [hk]
        simpa [kvErase, List.filter_cons, ha', kvGet_cons, hk'] using ih

theorem kvGet_erase {α : Type} (l : List (String × α)) (k k' : String) :
    kvGet (kvErase l k') k = if k = k' then none else kvGet l k := by
  by_cases h : k = k'
  · subst h
    simp [kvGet_erase_self]
  · simp [h, kvGet_erase_ne l k k' h]

theorem kvGet_setMap_self {α : Type} (l : List (String × α)) (k : String) (v : α)
    (hl : kvHas l k = true) :
    kvGet (l.map (fun p => if p.1 == k then (k, v) else p)) k = some v := by
  induction l with
  | nil => simp [kvHas, kvGet] at hl
  | cons p m ih =>
    obtain ⟨a, w⟩ := p
    by_cases ha : a = k
    · have h1 : (a == k) = true := by simp [ha]
      simp [kvGet_cons, h1, ha]
    · have ha' : (a == k) = false := by simp [ha]
      have hm : kvHas m k = true := by
        simpa [kvHas, kvGet_cons, ha'] using hl
      simpa [kvGet_cons, ha', ha] using ih hm

theorem kvGet_setMap_ne {α : Type} (l : List (String × α)) (k k' : String) (v : α)
    (h : k ≠ k') :
    kvGet (l.map (fun p => if p.1 == k' then (k', v) else p)) k = kvGet l k := by
  induction l with
  | nil => simp [kvGet]
  | cons p m ih =>
    obtain ⟨a, w⟩ := p
    by_cases ha : a = k'
    · have h1 : (a == k') = true := by simp [ha]
      have h2 : (a == k) = false := by
        simp only [beq_eq_false_iff_ne, ne_eq]
        intro hc
        exact h (hc ▸ ha)
      have h3 : (k' == k) = false := by
        simp only [beq_eq_false_iff_ne, ne_eq]
        exact fun hc => h hc.symm
      simpa [kvGet_cons, h1, h2, h3, ha] using ih
    · have ha' : (a == k') = false := by simp [ha]
      by_cases hk : a = k
      · have h1 : (a == k) = true := by simp [hk]
        simp [kvGet_cons, ha', h1, ha, hk, h]
      · have hk' : (a == k) = false := by simp [hk]
        simpa [kvGet_cons, ha', hk', ha, hk] using ih

theorem kvGet_set {α : Type} (l : List (String × α)) (k k' : String) (v : α) :
    kvGet (kvSet l k' v) k = if k = k' then some v else kvGet l k := by
  unfold kvSet
  by_cases hl : kvHas l k'
  · rw [if_pos hl]
    by_cases h : k = k'
    · subst h
      rw [kvGet_setMap_self l k v hl]
      simp
    · rw [kvGet_setMap_ne l k k' v h, if_neg h]
  · rw [if_neg hl, kvGet_append]
    have hnone : kvGet l k' = none := by
      simpa [kvHas] using hl
    by_cases h : k = k'
    · subst h
      rw [hnone]
      simp [kvGet_cons, Option.orElse]
    · have h' : (k' == k) = false := by
        simp only [beq_eq_false_iff_ne, ne_eq]
        exact fun hc => h hc.symm
      cases hg : kvGet l k <;> simp [kvGet_cons, h', hg, Option.orElse, kvGet, h]

theorem pullStepBody_newest (strategy stateKey : String) (localItems : List Obj)
    (pendingRemoval : List (Option Val)) (freshId : Nat → String)
    (acc : PullAcc) (remote : Obj) :
    (pullStepBody strategy stateKey localItems pendingRemoval freshId acc remote).newest
      = acc.newest := by
  unfold pullStepBody
  dsimp only
  repeat' split
  all_goals rfl

theorem pullStep_newest (strategy stateKey : String) (localItems : List Obj)
    (pendingRemoval : List (Option Val)) (freshId : Nat → String)
    (acc : PullAcc) (remote : Obj) :
    (pullStep strategy stateKey localItems pendingRemoval freshId acc remote).newest
      = bumpNewest acc.newest remote := by
  unfold pullStep
  rw [pullStepBody_newest]

theorem pull_foldl_newest (strategy stateKey : String) (localItems : List Obj)
    (pendingRemoval : List (Option Val)) (freshId : Nat → String)
    (serverData : List Obj) (acc : PullAcc) :
    (serverData.foldl (pullStep strategy stateKey localItems pendingRemoval freshId) acc).newest
      = serverData.foldl bumpNewest acc.newest := by
  induction serverData generalizing acc with
  | nil => rfl
  | cons r rest ih =>
    simp only [List.foldl_cons]
    rw [ih, pullStep_newest]

theorem bumpNewest_le (n : Int) (r : Obj) : n ≤ bumpNewest n r := by
  unfold bumpNewest
  split
  · split <;> omega
  · exact le_refl n

theorem foldl_bumpNewest_le (serverData : List Obj) (n : Int) :
    n ≤ serverData.foldl bumpNewest n := by
  induction serverData generalizing n with
  | nil => exact le_refl n
  | cons r rest ih =>
    simp only [List.foldl_cons]
    exact le_trans (bumpNewest_le n r) (ih (bumpNewest n r))

/-- C6: for every pull invocation on any starting state and any list of
server records returned, the stored per-collection watermark after the pull
equals the fold of the record timestamps over the previous watermark (so
timestamps later than now are accepted verbatim, there being no clamp), and
in particular never moves backward. -/
theorem pull_watermark_monotonic (strategy stateKey : String) (freshId : Nat → String)
    (st : PullState) (serverData : List Obj) :
    watermark (pull strategy stateKey freshId st serverData) stateKey
        = serverData.foldl bumpNewest (watermark st stateKey)
      ∧ watermark st stateKey
          ≤ watermark (pull strategy stateKey freshId st serverData) stateKey := by
  have key : watermark (pull strategy stateKey freshId st serverData) stateKey
      = serverData.foldl bumpNewest (watermark st stateKey) := by
    by_cases hsd : serverData.isEmpty
    · rw [List.isEmpty_iff.mp hsd]
      simp [pull, watermark]
    · unfold pull watermark
      rw [if_neg hsd]
      dsimp only
      rw [pull_foldl_newest, kvGet_spread]
      simp [kvGet_cons, Option.orElse]
  refine ⟨key, ?_⟩
  rw [key]
  exact foldl_bumpNewest_le serverData (watermark st stateKey)

/-- C1: the conflict switch of the pull matches the case labels client-wins
and server-wins, so under the strategy string remote-wins declared by the
repository's own `ConflictResolutionStrategy` type (and exercised by its
remote-wins test) no case runs: the local record keeps its local edit, the
pending change stays queued, and only the watermark advances.  The claim
(and the repository's type, README and tests) expect the remote values to
overwrite and the pending change to be discarded. -/
theorem pull_remote_wins_is_noop :
    (pull "remote-wins" "items" freshDemo demoPullState [demoRemote]).items
        = [demoLocalItem]
      ∧ (pull "remote-wins" "items" freshDemo demoPullState [demoRemote]).pendingChanges
        = [demoPending]
      ∧ (pull "remote-wins" "items" freshDemo demoPullState [demoRemote]).lastPulled
        = [("items", 100)] := by
  refine ⟨?_, ?_, ?_⟩ <;> rfl

/-- C4: `setPendingChangeToUpdate`, run when a Create completes against a
stale version (the user re-mutated mid-flight), forces the queue entry to an
Update even when the mid-flight mutation escalated it to a Remove: the
terminal Remove regresses to Update and the removal is lost. -/
theorem create_completion_regresses_pending_remove :
    (pushOne
        { items := [],
          pendingChanges := [{ action := SyncAction.remove, stateKey := "items",
                               localId := "L1", id := none, version := 2 }],
          conflicts := [] }
        { action := SyncAction.create, stateKey := "items", localId := "L1",
          id := none, version := 1, changes := [("name", Val.vstr "temp")] }
        true (some [("id", Val.vnum 7)]) "ignore" "f0" 0 id).state.pendingChanges
      = [{ action := SyncAction.update, stateKey := "items", localId := "L1",
           id := some (Val.vnum 7), version := 2 }] := by
  rfl

/-- C7 counterexample: a Removal diff for an identity with no queue entry is
inserted as a pending Remove even though no server identity is known
(`id := none`): the insert condition is `action === Remove || hasChanges`,
not the server-identity test the claim states. -/
theorem removal_without_server_identity_is_inserted :
    tryAddToPendingChanges [] "items"
        [("L2", { currentItem := some demoNeverSynced, updatedItem := none,
                  changes := none, id := none })]
      = [{ action := SyncAction.remove, stateKey := "items", localId := "L2",
           id := none, version := 1, changes := [],
           before := [("name", Val.vstr "temp")], after := [] }] := by
  rfl

/-- C7 amended: a Removal diff with no queue entry is always inserted as a
pending Remove (version 1, carrying whatever server id the diff knows, also
none); the no-round-trip guarantee is enforced at dispatch instead: pushOne
discards a Remove whose id is falsy without any network call and without
touching the items, so a never-synced add-then-remove never reaches the
remove operation. -/
theorem removal_enqueued_then_discarded_without_network
    (sk lid : String) (q : List PendingChange) (cur : Obj) (idv : Option Val)
    (st : PushState) (e : PendingChange)
    (hq : q.find? (matchesChange sk lid) = none)
    (he : e.action = SyncAction.remove)
    (hid : truthy e.id = false)
    (ur : Bool) (ar : Option Obj) (ms fl : String) (now : Int)
    (qts : PushState → PushState) :
    tryAddToPendingChanges q sk
        [(lid, { currentItem := some cur, updatedItem := none,
                 changes := none, id := idv })]
        = q ++ [{ action := SyncAction.remove, stateKey := sk, localId := lid,
                  id := idv, version := 1, changes := [],
                  before := omitSyncFields cur, after := [] }]
      ∧ (pushOne st e ur ar ms fl now qts).effects.removeCalls = []
      ∧ (pushOne st e ur ar ms fl now qts).state.pendingChanges
          = removeFromPendingChanges st.pendingChanges e.localId e.stateKey
      ∧ (pushOne st e ur ar ms fl now qts).state.items = st.items := by
  refine ⟨?_, ?_⟩
  · simp only [tryAddToPendingChanges, List.foldl]
    simp only [tryAddStep]
    rw [hq]
    simp [crAction, omitSyncFieldsOpt]
  · obtain ⟨ea, esk, elid, eid, ev, ech, ebf, eaf⟩ := e
    simp only at he hid
    subst he
    refine ⟨?_, ?_, ?_⟩ <;> simp [pushOne, hid]

/-- C7 witness: the amended theorem at the never-synced record `L2` and its
collapsed Remove entry. -/
theorem removal_enqueued_then_discarded_without_network_witness :
    tryAddToPendingChanges [] "items"
        [("L2", { currentItem := some demoNeverSynced, updatedItem := none,
                  changes := none, id := none })]
        = [] ++ [{ action := SyncAction.remove, stateKey := "items", localId := "L2",
                   id := none, version := 1, changes := [],
                   before := omitSyncFields demoNeverSynced, after := [] }]
      ∧ (pushOne demoPushState demoLocalRemove true none "ignore" "f0" 0 id).effects.removeCalls = []
      ∧ (pushOne demoPushState demoLocalRemove true none "ignore" "f0" 0 id).state.pendingChanges
          = removeFromPendingChanges demoPushState.pendingChanges
              demoLocalRemove.localId demoLocalRemove.stateKey
      ∧ (pushOne demoPushState demoLocalRemove true none "ignore" "f0" 0 id).state.items
          = demoPushState.items :=
  removal_enqueued_then_discarded_without_network "items" "L2" [] demoNeverSynced none
    demoPushState demoLocalRemove (by rfl) (by rfl) (by rfl) true none "ignore" "f0" 0 id

/-- C8 counterexample: a storage round-trip drops the conflict tracker: the
rehydrated state has no `conflicts` even though the persisted-from state had
one (partialize writes only firstLoadDone, pendingChanges and lastPulled). -/
theorem conflicts_lost_in_storage_roundtrip :
    (storageRoundTrip demoStore demoStore).syncState.conflicts = none
      ∧ demoStore.syncState.conflicts
        = some [("L1", { stateKey := "items", fields := [] })] :=
  ⟨rfl, rfl⟩

/-- C8 amended: the persisted image carries exactly `firstLoadDone`,
`pendingChanges` and `lastPulled` of the sync slice (not `conflicts`); after
a round-trip the transient `status` is reset to idle and `conflicts`,
`error` and `enabled` are absent. -/
theorem persisted_image_exactly_three_sync_fields (s current : StoreState) :
    partialize s
        = ⟨s.collections,
           ⟨none, none, s.syncState.firstLoadDone, s.syncState.pendingChanges,
            s.syncState.lastPulled, none, none⟩⟩
      ∧ (storageRoundTrip s current).syncState
        = ⟨some "idle", none, s.syncState.firstLoadDone, s.syncState.pendingChanges,
           s.syncState.lastPulled, none, none⟩ :=
  ⟨rfl, rfl⟩

theorem flRun_pagesAlt_outOfFuel (fuel : Nat) :
    ∀ (n : Nat) (lastId : Option Val) (st : FLState),
      lastId ≠ some (Val.vnum (idAlt n)) →
      flRun pagesAlt freshDemo fuel n lastId st = FLOutcome.outOfFuel := by
  induction fuel with
  | zero =>
    intro n lastId st _
    rfl
  | succ m ih =>
    intro n lastId st h
    have htrail : flTrailingId (pagesAlt n) = some (Val.vnum (idAlt n)) := rfl
    have hguard : (lastId.isSome && lastId == flTrailingId (pagesAlt n)) = false := by
      cases lastId with
      | none => rfl
      | some v =>
        rw [htrail]
        simp only [Option.isSome_some, Bool.true_and, beq_eq_false_iff_ne, ne_eq]
        exact h
    have hstep : idAlt n ≠ idAlt (n + 1) := by
      unfold idAlt
      rcases Nat.mod_two_eq_zero_or_one n with h2 | h2 <;>
        simp [h2, Nat.succ_mod_two_eq_one_iff, Nat.succ_mod_two_eq_zero_iff]
    simp only [flRun, pagesAlt]
    rw [show pagesAlt n = [[("id", Val.vnum (idAlt n))]] from rfl] at hguard
    simp only [List.isEmpty_cons, if_false, Bool.false_eq_true]
    rw [hguard]
    simp only [if_false, Bool.false_eq_true]
    apply ih
    intro hc
    rw [show flTrailingId [[("id", Val.vnum (idAlt n))]] = some (Val.vnum (idAlt n)) from rfl]
      at hc
    exact hstep (by injection (Option.some.inj hc))

/-- C9 counterexample: the first-load loop does not terminate on every page
sequence: a stream whose trailing cursor alternates between two values never
returns an empty page and never repeats a cursor on two consecutive pages,
so the guarded loop runs forever (no fuel bound suffices). -/
theorem firstLoad_loop_can_run_forever :
    flTerminates pagesAlt freshDemo flInit = False := by
  apply eq_false
  rintro ⟨fuel, hf⟩
  exact hf (flRun_pagesAlt_outOfFuel fuel 0 none flInit (by simp))

theorem flRun_reaches_result (pages : Nat → List Obj) (freshId : Nat → String) :
    ∀ (k fuel n : Nat) (lastId : Option Val) (st : FLState),
      pages (n + k) = [] → k < fuel →
      flRun pages freshId fuel n lastId st ≠ FLOutcome.outOfFuel := by
  intro k
  induction k with
  | zero =>
    intro fuel n lastId st hk hfuel
    obtain ⟨m, rfl⟩ : ∃ m, fuel = m + 1 := ⟨fuel - 1, by omega⟩
    simp only [flRun]
    rw [show pages n = [] from hk]
    simp
  | succ j ih =>
    intro fuel n lastId st hk hfuel
    obtain ⟨m, rfl⟩ : ∃ m, fuel = m + 1 := ⟨fuel - 1, by omega⟩
    simp only [flRun]
    by_cases hempty : (pages n).isEmpty
    · simp [hempty]
    · simp only [hempty, Bool.false_eq_true, if_false]
      by_cases hguard : (lastId.isSome && lastId == flTrailingId (pages n)) = true
      · simp [hguard]
      · simp only [hguard, if_false]
        apply ih m (n + 1)
        · rw [show n + 1 + j = n + (j + 1) from by omega]
          exact hk
        · omega

/-- C9 amended: the guarded first-load loop stops with `done` at an empty
page, aborts with the duplicate-records error when the previous trailing
cursor is defined and repeats, and whenever some later page is empty it
returns a result (never exhausts any sufficient fuel bound); but it does not
terminate on arbitrary page sequences (see the counterexample). -/
theorem firstLoad_guard_terminates (pages : Nat → List Obj) (freshId : Nat → String)
    (st : FLState) (fuel n k : Nat) (lastId : Option Val)
    (hk : pages (n + k) = []) (hfuel : k < fuel) :
    (pages n = [] → flRun pages freshId fuel n lastId st = FLOutcome.done st)
    ∧ ((pages n).isEmpty = false →
        (lastId.isSome && lastId == flTrailingId (pages n)) = true →
        flRun pages freshId fuel n lastId st
          = FLOutcome.failed (flMergeBatch freshId st (pages n)) dupPageMsg)
    ∧ flRun pages freshId fuel n lastId st ≠ FLOutcome.outOfFuel := by
  obtain ⟨m, rfl⟩ : ∃ m, fuel = m + 1 := ⟨fuel - 1, by omega⟩
  refine ⟨?_, ?_, ?_⟩
  · intro hempty
    simp only [flRun]
    rw [hempty]
    simp
  · intro hempty hguard
    simp only [flRun, hempty, Bool.false_eq_true, if_false, hguard, if_true]
  · exact flRun_reaches_result pages freshId k (m + 1) n lastId st hk hfuel

/-- C9 witness: the guard theorem at the one-page stream, fuel 2. -/
theorem firstLoad_guard_terminates_witness :
    (pagesOnce 0 = [] → flRun pagesOnce freshDemo 2 0 none flInit = FLOutcome.done flInit)
    ∧ ((pagesOnce 0).isEmpty = false →
        ((none : Option Val).isSome && (none : Option Val) == flTrailingId (pagesOnce 0)) = true →
        flRun pagesOnce freshDemo 2 0 none flInit
          = FLOutcome.failed (flMergeBatch freshDemo flInit (pagesOnce 0)) dupPageMsg)
    ∧ flRun pagesOnce freshDemo 2 0 none flInit ≠ FLOutcome.outOfFuel :=
  firstLoad_guard_terminates pagesOnce freshDemo flInit 2 0 1 none (by rfl) (by omega)

/-- C10: whenever `startFirstLoad` returns, `firstLoadDone` is true in every
case, including when a collection's first load failed; and the error
recorded alongside it is the first failure: with two failing collections the
first one's message is kept. -/
theorem firstLoadDone_set_even_on_error (freshId : Nat → String) (fuel : Nat)
    (cols : List (String × (Nat → List Obj))) (init : List (String × FLState))
    (res : SFLResult)
    (h : startFirstLoad freshId fuel cols init = some res) :
    res.firstLoadDone = true
    ∧ (∀ (k1 k2 : String) (p1 p2 : Nat → List Obj) (st1 st2 : FLState) (e1 e2 : String),
        flRun p1 freshId fuel 0 none flInit = FLOutcome.failed st1 e1 →
        flRun p2 freshId fuel 0 none ((kvGet (kvSet [] k1 st1) k2).getD flInit)
          = FLOutcome.failed st2 e2 →
        startFirstLoad freshId fuel [(k1, p1), (k2, p2)] []
          = some ⟨kvSet (kvSet [] k1 st1) k2 st2, true, some e1⟩) := by
  constructor
  · unfold startFirstLoad at h
    cases hm : cols.foldl (sflStep freshId fuel) (some (init, none)) with
    | none =>
      rw [hm] at h
      cases h
    | some p =>
      rw [hm] at h
      obtain ⟨states, se⟩ := p
      simp only at h
      cases h
      rfl
  · intro k1 k2 p1 p2 st1 st2 e1 e2 h1 h2
    unfold flInit at h1 h2
    unfold startFirstLoad
    simp only [List.foldl, sflStep]
    rw [show (kvGet ([] : List (String × FLState)) k1)
          = none from rfl]
    simp only [Option.getD_none]
    rw [h1]
    simp only
    rw [h2]
    rfl

/-- C10 witness: the theorem at the duplicate-cursor stream, whose run
fails with the guard error yet still sets firstLoadDone. -/
theorem firstLoadDone_set_even_on_error_witness :
    demoSFLResult.firstLoadDone = true
    ∧ (∀ (k1 k2 : String) (p1 p2 : Nat → List Obj) (st1 st2 : FLState) (e1 e2 : String),
        flRun p1 freshDemo 3 0 none flInit = FLOutcome.failed st1 e1 →
        flRun p2 freshDemo 3 0 none ((kvGet (kvSet [] k1 st1) k2).getD flInit)
          = FLOutcome.failed st2 e2 →
        startFirstLoad freshDemo 3 [(k1, p1), (k2, p2)] []
          = some ⟨kvSet (kvSet [] k1 st1) k2 st2, true, some e1⟩) :=
  firstLoadDone_set_even_on_error freshDemo 3 [("a", pagesDup)] [] demoSFLResult (by rfl)

theorem kvSpread_nil_left {α : Type} (b : List (String × α)) : kvSpread [] b = b := by
  simp [kvSpread, kvHas_nil]

theorem optFindSome?_append {α β : Type} (l1 l2 : List α) (f : α → Option β) :
    (l1 ++ l2).findSome? f = (l1.findSome? f).orElse (fun _ => l2.findSome? f) := by
  induction l1 with
  | nil => simp [Option.orElse]
  | cons x xs ih =>
    cases hx : f x <;> simp [List.findSome?_cons, hx, ih, Option.orElse]

theorem kvGet_foldl_spread {α : Type} (ds : List (List (String × α)))
    (i : List (String × α)) (k : String) :
    kvGet (ds.foldl kvSpread i) k
      = (ds.reverse.findSome? (fun d => kvGet d k)).orElse (fun _ => kvGet i k) := by
  induction ds generalizing i with
  | nil => simp [Option.orElse]
  | cons d ds ih =>
    simp only [List.foldl_cons, List.reverse_cons]
    rw [ih, optFindSome?_append]
    cases h1 : ds.reverse.findSome? (fun d => kvGet d k) <;>
      cases h2 : kvGet d k <;>
        simp [Option.orElse, List.findSome?_cons, h2, kvGet_spread]

/-- Per-field reading of the last-write-wins union: the value of the latest
diff carrying the field. -/
theorem kvGet_lwwUnion (ds : List Obj) (k : String) :
    kvGet (lwwUnion ds) k = ds.reverse.findSome? (fun d => kvGet d k) := by
  unfold lwwUnion
  rw [kvGet_foldl_spread]
  cases h : ds.reverse.findSome? (fun d => kvGet d k) <;> simp [Option.orElse, kvGet_nil]

theorem filter_eq_nil_of_find?_none (q : List PendingChange)
    (pr : PendingChange → Bool) (h : q.find? pr = none) : q.filter pr = [] := by
  induction q with
  | nil => rfl
  | cons x xs ih =>
    by_cases hx : pr x
    · rw [List.find?_cons_of_pos _ hx] at h
      cases h
    · have hx' : pr x = false := by simpa using hx
      rw [List.find?_cons_of_neg _ (by simp [hx'])] at h
      simp [List.filter_cons, hx', ih h]

theorem updateFirst_filter_length (q : List PendingChange)
    (pred pr : PendingChange → Bool) (f : PendingChange → PendingChange)
    (hf : ∀ p, pr (f p) = pr p) :
    ((updateFirst q pred f).filter pr).length = (q.filter pr).length := by
  induction q with
  | nil => rfl
  | cons x xs ih =>
    by_cases hx : pred x
    · simp only [updateFirst, hx, if_true]
      by_cases hpx : pr x
      · simp [List.filter_cons, hf, hpx]
      · have hpx' : pr x = false := by simpa using hpx
        simp [List.filter_cons, hf, hpx']
    · have hx' : pred x = false := by simpa using hx
      by_cases hpx : pr x
      · simp [updateFirst, hx', List.filter_cons, hpx, ih]
      · have hpx' : pr x = false := by simpa using hpx
        simp [updateFirst, hx', List.filter_cons, hpx', ih]

theorem updateFirst_find? (q : List PendingChange)
    (pred : PendingChange → Bool) (f : PendingChange → PendingChange)
    (hf : ∀ p, pred (f p) = pred p) :
    (updateFirst q pred f).find? pred = (q.find? pred).map f := by
  induction q with
  | nil => rfl
  | cons x xs ih =>
    by_cases hx : pred x
    · simp only [updateFirst, hx, if_true]
      rw [List.find?_cons_of_pos _ (by rw [hf]; exact hx),
          List.find?_cons_of_pos _ hx]
      rfl
    · have hx' : pred x = false := by simpa using hx
      simp only [updateFirst, hx', Bool.false_eq_true, if_false]
      rw [List.find?_cons_of_neg _ (by simp [hx']),
          List.find?_cons_of_neg _ (by simp [hx'])]
      exact ih

theorem tryAddUpd_keys (cr : ChangeRecord) (p : PendingChange) :
    (tryAddUpd cr p).stateKey = p.stateKey ∧ (tryAddUpd cr p).localId = p.localId := by
  unfold tryAddUpd
  dsimp only
  repeat' split
  all_goals exact ⟨rfl, rfl⟩

theorem tryAddUpd_matches (cr : ChangeRecord) (a b : String) (p : PendingChange) :
    matchesChange a b (tryAddUpd cr p) = matchesChange a b p := by
  obtain ⟨h1, h2⟩ := tryAddUpd_keys cr p
  simp [matchesChange, h1, h2]

theorem find?_append_of_none (q l : List PendingChange) (pr : PendingChange → Bool)
    (h : q.find? pr = none) : (q ++ l).find? pr = l.find? pr := by
  induction q with
  | nil => rfl
  | cons x xs ih =>
    by_cases hx : pr x
    · rw [List.find?_cons_of_pos _ hx] at h
      cases h
    · have hx' : pr x = false := by simpa using hx
      rw [List.find?_cons_of_neg _ (by simp [hx'])] at h
      rw [List.cons_append, List.find?_cons_of_neg _ (by simp [hx'])]
      exact ih h

theorem tryAddStep_found_remove (sk lid : String) (q : List PendingChange)
    (cr : ChangeRecord) (qi : PendingChange)
    (hfind : q.find? (matchesChange sk lid) = some qi)
    (hqi : (qi.action == SyncAction.remove) = true) :
    tryAddStep sk q (lid, cr) = q := by
  simp only [tryAddStep]
  rw [hfind]
  simp [hqi]

theorem tryAddStep_found_notRemove (sk lid : String) (q : List PendingChange)
    (cr : ChangeRecord) (qi : PendingChange)
    (hfind : q.find? (matchesChange sk lid) = some qi)
    (hqi : (qi.action == SyncAction.remove) = false) :
    tryAddStep sk q (lid, cr) = updateFirst q (matchesChange sk lid) (tryAddUpd cr) := by
  simp only [tryAddStep]
  rw [hfind]
  simp [hqi]

theorem tryAddStep_not_found (sk lid : String) (q : List PendingChange) (cr : ChangeRecord)
    (hfind : q.find? (matchesChange sk lid) = none) :
    tryAddStep sk q (lid, cr) = q
      ∨ ∃ e : PendingChange, e.stateKey = sk ∧ e.localId = lid
          ∧ tryAddStep sk q (lid, cr) = q ++ [e] := by
  simp only [tryAddStep]
  rw [hfind]
  dsimp only
  split
  · right
    exact ⟨_, rfl, rfl, rfl⟩
  · left
    rfl

theorem crAction_upd (cr : ChangeRecord) (hg : GoodUpd cr) :
    crAction cr = SyncAction.update := by
  obtain ⟨h1, h2, _, _⟩ := hg
  obtain ⟨c, hc⟩ := Option.isSome_iff_exists.mp h1
  obtain ⟨u, hu⟩ := Option.isSome_iff_exists.mp h2
  simp [crAction, hc, hu]

theorem goodUpd_isEmpty_false (cr : ChangeRecord) (hg : GoodUpd cr) :
    (omitSyncFieldsOpt cr.changes).isEmpty = false := by
  obtain ⟨_, _, _, h4⟩ := hg
  cases hx : omitSyncFieldsOpt cr.changes with
  | nil => exact absurd hx h4
  | cons a l => rfl

theorem tryAddStep_insert_upd (sk lid : String) (q : List PendingChange)
    (cr : ChangeRecord)
    (hfind : q.find? (matchesChange sk lid) = none) (hg : GoodUpd cr) :
    tryAddStep sk q (lid, cr) = q ++ [insertedUpd sk lid cr] := by
  have hact := crAction_upd cr hg
  have hne := goodUpd_isEmpty_false cr hg
  obtain ⟨_, _, h3, _⟩ := hg
  simp only [tryAddStep]
  rw [hfind]
  simp [hact, h3, hne, insertedUpd]

theorem tryAddUpd_upd (cr : ChangeRecord) (p : PendingChange) (hg : GoodUpd cr) :
    tryAddUpd cr p
      = { p with
          version := p.version + 1,
          changes := kvSpread p.changes (omitSyncFieldsOpt cr.changes),
          after := kvSpread p.after (omitSyncFieldsOpt cr.updatedItem) } := by
  have hact := crAction_upd cr hg
  have hne := goodUpd_isEmpty_false cr hg
  obtain ⟨_, _, h3, _⟩ := hg
  simp [tryAddUpd, hact, h3, hne]

theorem updates_run (sk lid : String) :
    ∀ (recs : List ChangeRecord) (q : List PendingChange) (e : PendingChange),
      (∀ cr ∈ recs, GoodUpd cr) →
      q.find? (matchesChange sk lid) = some e →
      e.action = SyncAction.update →
      ∃ e', (recs.foldl (fun q cr => tryAddToPendingChanges q sk [(lid, cr)]) q).find?
            (matchesChange sk lid) = some e'
        ∧ e'.action = SyncAction.update
        ∧ e'.version = e.version + recs.length
        ∧ e'.changes
            = recs.foldl (fun o cr => kvSpread o (omitSyncFieldsOpt cr.changes)) e.changes
        ∧ ∀ (a b : String),
            ((recs.foldl (fun q cr => tryAddToPendingChanges q sk [(lid, cr)]) q).filter
              (matchesChange a b)).length = ((q.filter (matchesChange a b)).length) := by
  intro recs
  induction recs with
  | nil =>
    intro q e hg hf he
    exact ⟨e, hf, he, by simp, by simp, fun a b => rfl⟩
  | cons cr rest ih =>
    intro q e hg hf he
    have hgcr : GoodUpd cr := hg cr (by simp)
    have hgrest : ∀ c ∈ rest, GoodUpd c := fun c hc => hg c (by simp [hc])
    have hq1 : tryAddToPendingChanges q sk [(lid, cr)]
        = updateFirst q (matchesChange sk lid) (tryAddUpd cr) := by
      show tryAddStep sk q (lid, cr) = _
      exact tryAddStep_found_notRemove sk lid q cr e hf (by simp [he])
    have hfindq1 : (updateFirst q (matchesChange sk lid) (tryAddUpd cr)).find?
        (matchesChange sk lid) = some (tryAddUpd cr e) := by
      rw [updateFirst_find? _ _ _ (fun p => tryAddUpd_matches cr sk lid p), hf]
      rfl
    have hupd := tryAddUpd_upd cr e hgcr
    have hact1 : (tryAddUpd cr e).action = SyncAction.update := by
      rw [hupd]
      exact he
    obtain ⟨e', hfind', hact', hver', hch', hcnt'⟩ :=
      ih (updateFirst q (matchesChange sk lid) (tryAddUpd cr)) (tryAddUpd cr e)
        hgrest hfindq1 hact1
    refine ⟨e', ?_, hact', ?_, ?_, ?_⟩
    · simp only [List.foldl_cons]
      rw [hq1]
      exact hfind'
    · rw [hver', hupd]
      simp only [List.length_cons]
      omega
    · rw [hch', hupd]
      simp only [List.foldl_cons]
    · intro a b
      simp only [List.foldl_cons]
      rw [hq1, hcnt' a b,
        updateFirst_filter_length _ _ _ _ (fun p => tryAddUpd_matches cr a b p)]

theorem tryAddStep_at_most_one (sk : String) (q : List PendingChange)
    (ent : String × ChangeRecord)
    (hq : ∀ a b, ((q.filter (matchesChange a b)).length ≤ 1)) :
    ∀ a b, (((tryAddStep sk q ent).filter (matchesChange a b)).length ≤ 1) := by
  obtain ⟨lid, cr⟩ := ent
  intro a b
  cases hfind : q.find? (matchesChange sk lid) with
  | some qi =>
    by_cases hrem : (qi.action == SyncAction.remove) = true
    · rw [tryAddStep_found_remove sk lid q cr qi hfind hrem]
      exact hq a b
    · rw [tryAddStep_found_notRemove sk lid q cr qi hfind (by simpa using hrem)]
      rw [updateFirst_filter_length _ _ _ _ (fun p => tryAddUpd_matches cr a b p)]
      exact hq a b
  | none =>
    rcases tryAddStep_not_found sk lid q cr hfind with h | ⟨e, hsk, hlid, h⟩
    · rw [h]
      exact hq a b
    · rw [h, List.filter_append, List.length_append]
      by_cases hme : matchesChange a b e = true
      · have hb : e.localId = b ∧ e.stateKey = a := by
          simp only [matchesChange, Bool.and_eq_true, beq_iff_eq] at hme
          exact hme
        have hab : a = sk ∧ b = lid := by
          refine ⟨?_, ?_⟩
          · rw [← hb.2, hsk]
          · rw [← hb.1, hlid]
        have hzero : q.filter (matchesChange a b) = [] := by
          rw [hab.1, hab.2]
          exact filter_eq_nil_of_find?_none q _ hfind
        rw [hzero]
        simp [hme]
      · have hme' : matchesChange a b e = false := by simpa using hme
        have : (List.filter (matchesChange a b) [e]).length = 0 := by
          simp [hme']
        rw [this]
        simpa using hq a b

theorem tryAdd_at_most_one (q : List PendingChange) (sk : String)
    (chs : List (String × ChangeRecord))
    (hq : ∀ a b, ((q.filter (matchesChange a b)).length ≤ 1)) :
    ∀ a b, (((tryAddToPendingChanges q sk chs).filter (matchesChange a b)).length ≤ 1) := by
  induction chs generalizing q with
  | nil => exact hq
  | cons ent rest ih =>
    intro a b
    exact ih (tryAddStep sk q ent) (tryAddStep_at_most_one sk q ent hq) a b

/-- C3: N successive local updates, each with a non-empty omitted field
diff, to the same (collectionKey, localIdentity), applied through the
coalescing insert with no intervening dispatch, leave exactly one queue
entry for that pair, whose version is N and whose field-change payload is
the last-write-wins union of the N diffs (per field, the value of the
latest diff carrying it); and in general the coalescing insert preserves
the at-most-one-entry-per-pair invariant. -/
theorem coalescing_updates (sk lid : String) (q0 : List PendingChange)
    (recs : List ChangeRecord)
    (hne : recs ≠ [])
    (hgood : ∀ cr ∈ recs, GoodUpd cr)
    (h0 : q0.find? (matchesChange sk lid) = none) :
    (((recs.foldl (fun q cr => tryAddToPendingChanges q sk [(lid, cr)]) q0).filter
        (matchesChange sk lid)).length = 1
      ∧ ∃ e, (recs.foldl (fun q cr => tryAddToPendingChanges q sk [(lid, cr)]) q0).find?
            (matchesChange sk lid) = some e
          ∧ e.version = recs.length
          ∧ e.changes = lwwUnion (recs.map (fun cr => omitSyncFieldsOpt cr.changes))
          ∧ ∀ k, kvGet e.changes k
              = (recs.map (fun cr => omitSyncFieldsOpt cr.changes)).reverse.findSome?
                  (fun d => kvGet d k))
      ∧ ∀ (q : List PendingChange) (sk' : String) (chs : List (String × ChangeRecord)),
          (∀ a b, ((q.filter (matchesChange a b)).length ≤ 1)) →
          ∀ a b, (((tryAddToPendingChanges q sk' chs).filter (matchesChange a b)).length ≤ 1) := by
  obtain ⟨cr, rest, rfl⟩ := List.exists_cons_of_ne_nil hne
  have hgcr : GoodUpd cr := hgood cr (by simp)
  have hgrest : ∀ c ∈ rest, GoodUpd c := fun c hc => hgood c (by simp [hc])
  have hq1 : tryAddToPendingChanges q0 sk [(lid, cr)] = q0 ++ [insertedUpd sk lid cr] := by
    show tryAddStep sk q0 (lid, cr) = _
    exact tryAddStep_insert_upd sk lid q0 cr h0 hgcr
  have hm1 : matchesChange sk lid (insertedUpd sk lid cr) = true := by
    simp [matchesChange, insertedUpd]
  have hfind1 : (q0 ++ [insertedUpd sk lid cr]).find? (matchesChange sk lid)
      = some (insertedUpd sk lid cr) := by
    rw [find?_append_of_none q0 _ _ h0]
    exact List.find?_cons_of_pos _ hm1
  obtain ⟨e, hfinde, hacte, hver, hch, hcnt⟩ :=
    updates_run sk lid rest _ _ hgrest hfind1 rfl
  have hlww : e.changes
      = lwwUnion ((cr :: rest).map (fun cr => omitSyncFieldsOpt cr.changes)) := by
    rw [hch]
    simp [lwwUnion, List.foldl_map, kvSpread_nil_left, insertedUpd]
  refine ⟨⟨?_, ⟨e, ?_, ?_, hlww, ?_⟩⟩, ?_⟩
  · simp only [List.foldl_cons]
    rw [hq1, hcnt sk lid, List.filter_append,
      filter_eq_nil_of_find?_none q0 _ h0]
    simp [hm1]
  · simp only [List.foldl_cons]
    rw [hq1]
    exact hfinde
  · rw [hver]
    simp only [List.length_cons, insertedUpd]
    omega
  · intro k
    rw [hlww, kvGet_lwwUnion]
  · exact fun q sk' chs hq => tryAdd_at_most_one q sk' chs hq

/-- C3 witness: two rapid edits of `L1` from an empty queue coalesce into
one entry with version 2 and the last-write-wins payload. -/
theorem coalescing_updates_witness :
    ((([demoUpdRec1, demoUpdRec2].foldl
          (fun q cr => tryAddToPendingChanges q "items" [("L1", cr)]) []).filter
        (matchesChange "items" "L1")).length = 1
      ∧ ∃ e, ([demoUpdRec1, demoUpdRec2].foldl
            (fun q cr => tryAddToPendingChanges q "items" [("L1", cr)]) []).find?
            (matchesChange "items" "L1") = some e
          ∧ e.version = [demoUpdRec1, demoUpdRec2].length
          ∧ e.changes = lwwUnion ([demoUpdRec1, demoUpdRec2].map
              (fun cr => omitSyncFieldsOpt cr.changes))
          ∧ ∀ k, kvGet e.changes k
              = ([demoUpdRec1, demoUpdRec2].map
                  (fun cr => omitSyncFieldsOpt cr.changes)).reverse.findSome?
                  (fun d => kvGet d k))
      ∧ ∀ (q : List PendingChange) (sk' : String) (chs : List (String × ChangeRecord)),
          (∀ a b, ((q.filter (matchesChange a b)).length ≤ 1)) →
          ∀ a b, (((tryAddToPendingChanges q sk' chs).filter (matchesChange a b)).length ≤ 1) :=
  coalescing_updates "items" "L1" [] [demoUpdRec1, demoUpdRec2]
    (by decide) (by decide) (by rfl)

theorem kvGet_preserved_some (li chs : Obj) (k : String) (v : Val)
    (hkh : kvHas chs k = true) (hv : kvGet li k = some v) :
    kvGet (chs.filterMap (fun p => (kvGet li p.1).map (fun v => (p.1, v)))) k = some v := by
  induction chs with
  | nil => simp [kvHas, kvGet] at hkh
  | cons p rest ih =>
    obtain ⟨pk, pv⟩ := p
    by_cases hpk : pk = k
    · subst hpk
      rw [List.filterMap_cons]
      simp only
      rw [hv]
      simp [kvGet_cons]
    · have hpk' : (pk == k) = false := by simp [hpk]
      have hrest : kvHas rest k = true := by
        simpa [kvHas, kvGet_cons, hpk'] using hkh
      rw [List.filterMap_cons]
      cases hw : kvGet li pk <;>
        simp only [Option.map_none', Option.map_some'] <;>
          simpa [kvGet_cons, hpk'] using ih hrest

theorem kvGet_preserved_none (li chs : Obj) (k : String)
    (hkh : kvHas chs k = false) :
    kvGet (chs.filterMap (fun p => (kvGet li p.1).map (fun v => (p.1, v)))) k = none := by
  induction chs with
  | nil => rfl
  | cons p rest ih =>
    obtain ⟨pk, pv⟩ := p
    have hpk' : (pk == k) = false := by
      by_contra hc
      have : (pk == k) = true := by simpa using hc
      simp [kvHas, kvGet_cons, this] at hkh
    have hrest : kvHas rest k = false := by
      simpa [kvHas, kvGet_cons, hpk'] using hkh
    rw [List.filterMap_cons]
    cases hw : kvGet li pk <;>
      simp only [Option.map_none', Option.map_some'] <;>
        simpa [kvGet_cons, hpk'] using ih hrest

/-- C5: the try-shallow-merge branch of the pull, for a live remote record
matching a local record that has a pending change.  The conflict set is
exactly the fields in both the pending change's edited set and the remote
payload whose remote value differs from the captured before-snapshot value
and from the locally edited value; when it is non-empty it is recorded
under this identity and nothing else changes (pending kept, items kept);
when it is empty the merge keeps the local value of every locally-touched
field present locally, applies the remote value on every untouched field,
and clears the identity's conflict entry. -/
theorem try_shallow_merge_behaviour (stateKey : String) (localItems : List Obj)
    (pendingRemoval : List (Option Val)) (freshId : Nat → String)
    (acc : PullAcc) (remote : Obj) (li : Obj) (pc : PendingChange)
    (hskip : pendingRemoval.contains (kvGet remote "id") = false)
    (hdel : truthy (kvGet remote "deleted") = false)
    (hli : lookupById localItems (kvGet remote "id") = some li)
    (hpc : acc.pendingChanges.find? (pendingFor stateKey li) = some pc) :
    (∀ (k : String) (lv : Val) (rv : Option Val),
        (⟨k, lv, rv⟩ : FieldConflict) ∈ conflictFields pc (kvErase remote "deleted")
          ↔ (k, lv) ∈ pc.changes
              ∧ kvHas pc.before k = true
              ∧ kvHas (kvErase remote "deleted") k = true
              ∧ kvGet pc.before k ≠ kvGet (kvErase remote "deleted") k
              ∧ some lv ≠ kvGet (kvErase remote "deleted") k
              ∧ rv = kvGet (kvErase remote "deleted") k)
    ∧ (conflictFields pc (kvErase remote "deleted") ≠ [] →
        (pullStepBody "try-shallow-merge" stateKey localItems pendingRemoval freshId
            acc remote).conflicts
            = kvSet acc.conflicts pc.localId
                ⟨stateKey, conflictFields pc (kvErase remote "deleted")⟩
          ∧ (pullStepBody "try-shallow-merge" stateKey localItems pendingRemoval freshId
              acc remote).nextItems = acc.nextItems
          ∧ (pullStepBody "try-shallow-merge" stateKey localItems pendingRemoval freshId
              acc remote).pendingChanges = acc.pendingChanges)
    ∧ (conflictFields pc (kvErase remote "deleted") = [] →
        (pullStepBody "try-shallow-merge" stateKey localItems pendingRemoval freshId
            acc remote).pendingChanges = acc.pendingChanges
          ∧ (pullStepBody "try-shallow-merge" stateKey localItems pendingRemoval freshId
              acc remote).conflicts = kvErase acc.conflicts pc.localId
          ∧ (pullStepBody "try-shallow-merge" stateKey localItems pendingRemoval freshId
              acc remote).nextItems
            = acc.nextItems.map
                (fun i => if kvGet i "_localId" == kvGet li "_localId"
                          then shallowMerged pc li (kvErase remote "deleted") else i))
    ∧ (∀ k : String, k ≠ "_localId" →
        (∀ v : Val, kvHas pc.changes k = true → kvGet li k = some v →
            kvGet (shallowMerged pc li (kvErase remote "deleted")) k = some v)
          ∧ (kvHas pc.changes k = false →
            kvGet (shallowMerged pc li (kvErase remote "deleted")) k
              = kvGet (kvErase remote "deleted") k)) := by
  have hshape : ∀ strategyEq : Unit, pullStepBody "try-shallow-merge" stateKey localItems
      pendingRemoval freshId acc remote
      = (if (conflictFields pc (kvErase remote "deleted")).isEmpty = false then
          let conf : Conflict := ⟨stateKey, conflictFields pc (kvErase remote "deleted")⟩
          { acc with conflicts := kvSet acc.conflicts pc.localId conf }
        else
          { acc with
            nextItems := acc.nextItems.map
              (fun i => if kvGet i "_localId" == kvGet li "_localId"
                        then shallowMerged pc li (kvErase remote "deleted") else i),
            conflicts := kvErase acc.conflicts pc.localId }) := by
    intro _
    unfold pullStepBody
    simp only [hskip, Bool.false_eq_true, if_false, hdel]
    rw [hli]
    simp only
    rw [hpc]
    simp only [show (("try-shallow-merge" == "client-wins") = false) from by decide,
      show (("try-shallow-merge" == "server-wins") = false) from by decide,
      show (("try-shallow-merge" == "try-shallow-merge") = true) from by decide,
      Bool.false_eq_true, if_false, if_true]
    by_cases hf : (conflictFields pc (kvErase remote "deleted")).isEmpty = false
    · simp [hf]
    · have hf' : (conflictFields pc (kvErase remote "deleted")).isEmpty = true := by
        simpa using hf
      simp [hf']
  refine ⟨?_, ?_, ?_, ?_⟩
  · intro k lv rv
    constructor
    · intro hmem
      simp only [conflictFields, List.mem_map, List.mem_filter] at hmem
      obtain ⟨⟨pk, pv⟩, ⟨hmem', hcond⟩, heq⟩ := hmem
      simp only [Bool.and_eq_true, Bool.not_eq_true', beq_eq_false_iff_ne, ne_eq] at hcond
      obtain ⟨⟨⟨hb, hr⟩, hbr⟩, hlr⟩ := hcond
      simp only [FieldConflict.mk.injEq] at heq
      obtain ⟨hk, hlv, hrv⟩ := heq
      subst hk
      subst hlv
      exact ⟨hmem', hb, hr, hbr, hlr, hrv.symm⟩
    · rintro ⟨hmem, hb, hr, hbr, hlr, hrv⟩
      simp only [conflictFields, List.mem_map, List.mem_filter]
      refine ⟨(k, lv), ⟨hmem, ?_⟩, ?_⟩
      · simp only [Bool.and_eq_true, Bool.not_eq_true', beq_eq_false_iff_ne, ne_eq]
        exact ⟨⟨⟨hb, hr⟩, hbr⟩, hlr⟩
      · rw [hrv]
  · intro hf
    have hfe : (conflictFields pc (kvErase remote "deleted")).isEmpty = false := by
      cases hx : conflictFields pc (kvErase remote "deleted") with
      | nil => exact absurd hx hf
      | cons a l => rfl
    rw [hshape ()]
    refine ⟨?_, ?_, ?_⟩ <;> simp [hfe]
  · intro hf
    have hfe : (conflictFields pc (kvErase remote "deleted")).isEmpty = true := by
      rw [hf]
      rfl
    rw [hshape ()]
    refine ⟨?_, ?_, ?_⟩ <;> simp [hfe]
  · intro k hk
    have hhead : (("_localId" : String) == k) = false := by
      simp only [beq_eq_false_iff_ne, ne_eq]
      exact fun hc => hk hc.symm
    constructor
    · intro v hkh hv
      unfold shallowMerged
      rw [kvGet_spread]
      have hpres : kvGet (preservedLocal pc li) k = some v := by
        unfold preservedLocal
        rw [kvGet_cons]
        simp only [hhead, Bool.false_eq_true, if_false]
        exact kvGet_preserved_some li pc.changes k v hkh hv
      rw [hpres]
      rfl
    · intro hkh
      unfold shallowMerged
      rw [kvGet_spread]
      have hpres : kvGet (preservedLocal pc li) k = none := by
        unfold preservedLocal
        rw [kvGet_cons]
        simp only [hhead, Bool.false_eq_true, if_false]
        exact kvGet_preserved_none li pc.changes k hkh
      rw [hpres]
      rfl

/-- C5 witness: the branch theorem at the spec's own conflict example
(local name change against a different remote name change from the same
base). -/
theorem try_shallow_merge_behaviour_witness :
    (∀ (k : String) (lv : Val) (rv : Option Val),
        (⟨k, lv, rv⟩ : FieldConflict) ∈ conflictFields demoPending (kvErase demoRemote "deleted")
          ↔ (k, lv) ∈ demoPending.changes
              ∧ kvHas demoPending.before k = true
              ∧ kvHas (kvErase demoRemote "deleted") k = true
              ∧ kvGet demoPending.before k ≠ kvGet (kvErase demoRemote "deleted") k
              ∧ some lv ≠ kvGet (kvErase demoRemote "deleted") k
              ∧ rv = kvGet (kvErase demoRemote "deleted") k)
    ∧ (conflictFields demoPending (kvErase demoRemote "deleted") ≠ [] →
        (pullStepBody "try-shallow-merge" "items" [demoLocalItem] [] freshDemo
            demoPullAcc demoRemote).conflicts
            = kvSet demoPullAcc.conflicts demoPending.localId
                ⟨"items", conflictFields demoPending (kvErase demoRemote "deleted")⟩
          ∧ (pullStepBody "try-shallow-merge" "items" [demoLocalItem] [] freshDemo
              demoPullAcc demoRemote).nextItems = demoPullAcc.nextItems
          ∧ (pullStepBody "try-shallow-merge" "items" [demoLocalItem] [] freshDemo
              demoPullAcc demoRemote).pendingChanges = demoPullAcc.pendingChanges)
    ∧ (conflictFields demoPending (kvErase demoRemote "deleted") = [] →
        (pullStepBody "try-shallow-merge" "items" [demoLocalItem] [] freshDemo
            demoPullAcc demoRemote).pendingChanges = demoPullAcc.pendingChanges
          ∧ (pullStepBody "try-shallow-merge" "items" [demoLocalItem] [] freshDemo
              demoPullAcc demoRemote).conflicts
            = kvErase demoPullAcc.conflicts demoPending.localId
          ∧ (pullStepBody "try-shallow-merge" "items" [demoLocalItem] [] freshDemo
              demoPullAcc demoRemote).nextItems
            = demoPullAcc.nextItems.map
                (fun i => if kvGet i "_localId" == kvGet demoLocalItem "_localId"
                          then shallowMerged demoPending demoLocalItem
                                 (kvErase demoRemote "deleted") else i))
    ∧ (∀ k : String, k ≠ "_localId" →
        (∀ v : Val, kvHas demoPending.changes k = true → kvGet demoLocalItem k = some v →
            kvGet (shallowMerged demoPending demoLocalItem (kvErase demoRemote "deleted")) k
              = some v)
          ∧ (kvHas demoPending.changes k = false →
            kvGet (shallowMerged demoPending demoLocalItem (kvErase demoRemote "deleted")) k
              = kvGet (kvErase demoRemote "deleted") k)) :=
  try_shallow_merge_behaviour "items" [demoLocalItem] [] freshDemo demoPullAcc
    demoRemote demoLocalItem demoPending (by rfl) (by rfl) (by decide) (by decide)

theorem filter_of_filter_subsumes (l : List Obj) (pr q : Obj → Bool)
    (h : ∀ x, pr x = true → q x = true) :
    (l.filter q).filter pr = l.filter pr := by
  induction l with
  | nil => rfl
  | cons x xs ih =>
    by_cases hq : q x = true
    · simp only [List.filter_cons, hq, if_true]
      by_cases hp : pr x = true
      · simp [List.filter_cons, hp, ih]
      · have hp' : pr x = false := by simpa using hp
        simp [List.filter_cons, hp', ih]
    · have hq' : q x = false := by simpa using hq
      have hp' : pr x = false := by
        by_contra hc
        have : pr x = true := by simpa using hc
        rw [h x this] at hq'
        cases hq'
      simp [List.filter_cons, hq', hp', ih]

theorem filter_map_keeps (l : List Obj) (pr : Obj → Bool) (f : Obj → Obj)
    (h1 : ∀ x ∈ l, pr x = true → f x = x)
    (h2 : ∀ x ∈ l, pr x = false → pr (f x) = false) :
    (l.map f).filter pr = l.filter pr := by
  induction l with
  | nil => rfl
  | cons x xs ih =>
    have ih' := ih (fun y hy => h1 y (by simp [hy])) (fun y hy => h2 y (by simp [hy]))
    by_cases hp : pr x = true
    · rw [List.map_cons, List.filter_cons_of_pos (by rw [h1 x (by simp) hp]; exact hp),
        List.filter_cons_of_pos hp, h1 x (by simp) hp, ih']
    · have hp' : pr x = false := by simpa using hp
      rw [List.map_cons, List.filter_cons_of_neg (by simp [h2 x (by simp) hp']),
        List.filter_cons_of_neg (by simp [hp']), ih']

theorem lookupById_spec (items : List Obj) (idv : Option Val) (li : Obj)
    (h : lookupById items idv = some li) :
    li ∈ items ∧ kvGet li "id" = idv ∧ truthy (kvGet li "id") = true := by
  unfold lookupById at h
  have hmem := List.mem_of_find?_eq_some h
  have hpred := List.find?_some h
  rw [List.mem_reverse] at hmem
  have hm := List.mem_filter.mp hmem
  exact ⟨hm.1, by simpa using hpred, hm.2⟩

theorem rid_filter_map (l items0 : List Obj) (rid : Val)
    (matcher : Obj → Bool) (merged : Obj)
    (hfil : l.filter (fun i => kvGet i "id" == some rid)
        = items0.filter (fun i => kvGet i "id" == some rid))
    (hA : ∀ x ∈ l, kvGet x "id" = some rid → x ∈ items0)
    (hmerged : kvGet merged "id" ≠ some rid)
    (hmatch : ∀ x ∈ l, kvGet x "id" = some rid → matcher x = false) :
    ((l.map (fun i => if matcher i then merged else i)).filter
        (fun i => kvGet i "id" == some rid)
      = items0.filter (fun i => kvGet i "id" == some rid))
    ∧ (∀ x ∈ l.map (fun i => if matcher i then merged else i),
        kvGet x "id" = some rid → x ∈ items0) := by
  have hmerged' : (kvGet merged "id" == some rid) = false := by
    simpa [beq_eq_false_iff_ne] using hmerged
  constructor
  · rw [← hfil]
    apply filter_map_keeps
    · intro x hx hpx
      have : kvGet x "id" = some rid := by simpa using hpx
      rw [hmatch x hx this]
      simp
    · intro x hx hpx
      by_cases hm : matcher x = true
      · simp [hm, hmerged']
      · have hm' : matcher x = false := by simpa using hm
        simp [hm', hpx]
  · intro x' hx' hid'
    obtain ⟨x, hx, rfl⟩ := List.mem_map.mp hx'
    by_cases hm : matcher x = true
    · rw [if_pos hm] at hid'
      exact absurd hid' hmerged
    · have hm' : matcher x = false := by simpa using hm
      rw [if_neg (by simp [hm'])] at hid' ⊢
      exact hA x hx hid'

theorem kvGet_preservedMap (li chs : Obj) (k : String) :
    kvGet (chs.filterMap (fun p => (kvGet li p.1).map (fun v => (p.1, v)))) k = none
      ∨ kvGet (chs.filterMap (fun p => (kvGet li p.1).map (fun v => (p.1, v)))) k
          = kvGet li k := by
  induction chs with
  | nil => exact Or.inl rfl
  | cons p rest ih =>
    obtain ⟨pk, pv⟩ := p
    by_cases hpk : pk = k
    · subst hpk
      cases hw : kvGet li pk with
      | none => simpa [List.filterMap_cons, hw] using ih
      | some v =>
        right
        simp [List.filterMap_cons, hw, kvGet_cons]
    · have hpk' : (pk == k) = false := by simp [hpk]
      cases hw : kvGet li pk with
      | none => simpa [List.filterMap_cons, hw] using ih
      | some v =>
        simpa [List.filterMap_cons, hw, kvGet_cons, hpk'] using ih

theorem preservedLocal_id (pc : PendingChange) (li : Obj) :
    kvGet (preservedLocal pc li) "id" = none
      ∨ kvGet (preservedLocal pc li) "id" = kvGet li "id" := by
  unfold preservedLocal
  rw [kvGet_cons]
  simp only [show (("_localId" : String) == "id") = false from by decide,
    Bool.false_eq_true, if_false]
  exact kvGet_preservedMap li pc.changes "id"

theorem spread_localId_tag_id (o : Obj) (s : String) :
    kvGet (kvSpread o [("_localId", Val.vstr s)]) "id" = kvGet o "id" := by
  rw [kvGet_spread]
  have h1 : kvGet [("_localId", Val.vstr s)] "id" = none := by
    rw [kvGet_cons]
    simp only [show (("_localId" : String) == "id") = false from by decide,
      Bool.false_eq_true, if_false]
    rfl
  rw [h1]
  rfl

theorem withLocalId_id_eq (o : Obj) (lv : Option Val) :
    kvGet (withLocalId o lv) "id" = kvGet o "id" := by
  cases lv with
  | none =>
    show kvGet (kvSpread o []) "id" = kvGet o "id"
    rw [kvGet_spread]
    rfl
  | some v =>
    show kvGet (kvSpread o [("_localId", v)]) "id" = kvGet o "id"
    rw [kvGet_spread]
    have h1 : kvGet [("_localId", v)] "id" = none := by
      rw [kvGet_cons]
      simp only [show (("_localId" : String) == "id") = false from by decide,
        Bool.false_eq_true, if_false]
      rfl
    rw [h1]
    rfl

theorem shallowMerged_id (pc : PendingChange) (li remote : Obj)
    (hli : kvGet li "id" = kvGet remote "id") :
    kvGet (shallowMerged pc li remote) "id" = kvGet remote "id" := by
  unfold shallowMerged
  rw [kvGet_spread]
  rcases preservedLocal_id pc li with h | h
  · rw [h]
    rfl
  · rw [h, hli]
    cases hr : kvGet remote "id" <;> rfl

theorem spread_local_id (li remote : Obj)
    (hli : kvGet li "id" = kvGet remote "id") :
    kvGet (kvSpread li remote) "id" = kvGet remote "id" := by
  rw [kvGet_spread]
  cases hr : kvGet remote "id" with
  | some v => rfl
  | none =>
    show kvGet li "id" = none
    rw [hli]
    exact hr

theorem localId_unique (items0 : List Obj) (x y : Obj)
    (hnodup : items0.Pairwise (fun a b => kvGet a "_localId" ≠ kvGet b "_localId"))
    (hx : x ∈ items0) (hy : y ∈ items0)
    (h : kvGet x "_localId" = kvGet y "_localId") : x = y := by
  induction items0 with
  | nil => cases hx
  | cons a l ih =>
    rw [List.pairwise_cons] at hnodup
    cases hx with
    | head =>
      cases hy with
      | head => rfl
      | tail _ hy' => exact absurd h (hnodup.1 y hy')
    | tail _ hx' =>
      cases hy with
      | head => exact absurd h.symm (hnodup.1 x hx')
      | tail _ hy' => exact ih hnodup.2 hx' hy'

/-- One pull-loop body step neither rewrites nor re-inserts any entry
carrying a pending-Remove id; every such entry also stays an original
item. -/
theorem pullStepBody_rid (strategy stateKey : String) (items0 : List Obj)
    (pendingRemoval : List (Option Val)) (freshId : Nat → String) (rid : Val)
    (hrem : pendingRemoval.contains (some rid) = true)
    (hnodup : items0.Pairwise (fun a b => kvGet a "_localId" ≠ kvGet b "_localId"))
    (acc : PullAcc) (remote : Obj)
    (hfil : acc.nextItems.filter (ridPred rid) = items0.filter (ridPred rid))
    (hA : ∀ x ∈ acc.nextItems, kvGet x "id" = some rid → x ∈ items0) :
    ((pullStepBody strategy stateKey items0 pendingRemoval freshId acc remote).nextItems.filter
        (ridPred rid) = items0.filter (ridPred rid))
      ∧ ∀ x ∈ (pullStepBody strategy stateKey items0 pendingRemoval freshId
          acc remote).nextItems, kvGet x "id" = some rid → x ∈ items0 := by
  by_cases hskip : pendingRemoval.contains (kvGet remote "id") = true
  · have hshape : pullStepBody strategy stateKey items0 pendingRemoval freshId acc remote
        = acc := by
      unfold pullStepBody
      rw [if_pos hskip]
    rw [hshape]
    exact ⟨hfil, hA⟩
  · have hskip' : pendingRemoval.contains (kvGet remote "id") = false := by
      simpa using hskip
    have hrid : kvGet remote "id" ≠ some rid := by
      intro hc
      rw [hc, hrem] at hskip'
      simp at hskip'
    have hre : kvGet (kvErase remote "deleted") "id" = kvGet remote "id" := by
      rw [kvGet_erase, if_neg (by decide)]
    by_cases hdel : truthy (kvGet remote "deleted") = true
    · cases hlk : lookupById items0 (kvGet remote "id") with
      | some li =>
        have hshape : pullStepBody strategy stateKey items0 pendingRemoval freshId acc remote
            = { acc with nextItems :=
                acc.nextItems.filter (fun i => !(kvGet i "id" == kvGet remote "id")) } := by
          unfold pullStepBody
          simp only [hskip', Bool.false_eq_true, if_false, hdel, eq_self_iff_true, if_true]
          rw [hlk]
        rw [hshape]
        constructor
        · have hsub : ∀ x, ridPred rid x = true →
              (!(kvGet x "id" == kvGet remote "id")) = true := by
            intro x hpx
            have hxid : kvGet x "id" = some rid := by
              simpa [ridPred] using hpx
            rw [hxid]
            simp only [Bool.not_eq_true', beq_eq_false_iff_ne, ne_eq]
            exact fun hc => hrid hc.symm
          calc (acc.nextItems.filter (fun i => !(kvGet i "id" == kvGet remote "id"))).filter
                (ridPred rid)
              = acc.nextItems.filter (ridPred rid) :=
                filter_of_filter_subsumes acc.nextItems (ridPred rid) _ hsub
            _ = items0.filter (ridPred rid) := hfil
        · intro x hx hid
          exact hA x (List.mem_of_mem_filter hx) hid
      | none =>
        have hshape : pullStepBody strategy stateKey items0 pendingRemoval freshId acc remote
            = acc := by
          unfold pullStepBody
          simp only [hskip', Bool.false_eq_true, if_false, hdel, eq_self_iff_true, if_true]
          rw [hlk]
        rw [hshape]
        exact ⟨hfil, hA⟩
    · have hdelf : truthy (kvGet remote "deleted") = false := by
        simpa using hdel
      cases hlk : lookupById items0 (kvGet remote "id") with
      | some li =>
        obtain ⟨hmem_li, hid_li, htr_li⟩ := lookupById_spec items0 (kvGet remote "id") li hlk
        have hmatch : ∀ x ∈ acc.nextItems, kvGet x "id" = some rid →
            (kvGet x "_localId" == kvGet li "_localId") = false := by
          intro x hx hxid
          by_contra hc
          have hbeq : (kvGet x "_localId" == kvGet li "_localId") = true := by
            simpa using hc
          have hloc : kvGet x "_localId" = kvGet li "_localId" := by
            simpa using hbeq
          have hxy : x = li := localId_unique items0 x li hnodup (hA x hx hxid) hmem_li hloc
          rw [hxy, hid_li] at hxid
          exact hrid hxid
        cases hfind : acc.pendingChanges.find? (pendingFor stateKey li) with
        | some pc =>
          by_cases hcw : (strategy == "client-wins") = true
          · have hshape : pullStepBody strategy stateKey items0 pendingRemoval freshId acc
                remote = acc := by
              unfold pullStepBody
              simp only [hskip', Bool.false_eq_true, if_false, hdelf]
              rw [hlk]
              simp only
              rw [hfind]
              simp only [hcw, eq_self_iff_true, if_true]
            rw [hshape]
            exact ⟨hfil, hA⟩
          · have hcw' : (strategy == "client-wins") = false := by simpa using hcw
            by_cases hsw : (strategy == "server-wins") = true
            · have hmerged : kvGet (withLocalId (kvErase remote "deleted")
                  (kvGet li "_localId")) "id" ≠ some rid := by
                rw [withLocalId_id_eq, hre]
                exact hrid
              have hshape : (pullStepBody strategy stateKey items0 pendingRemoval freshId acc
                    remote).nextItems
                  = acc.nextItems.map (fun i =>
                      if kvGet i "_localId" == kvGet li "_localId"
                      then withLocalId (kvErase remote "deleted") (kvGet li "_localId")
                      else i) := by
                unfold pullStepBody
                simp only [hskip', Bool.false_eq_true, if_false, hdelf]
                rw [hlk]
                simp only
                rw [hfind]
                simp only [hcw', Bool.false_eq_true, if_false, hsw, eq_self_iff_true, if_true]
              have hpair := rid_filter_map acc.nextItems items0 rid
                (fun i => kvGet i "_localId" == kvGet li "_localId")
                (withLocalId (kvErase remote "deleted") (kvGet li "_localId"))
                hfil hA hmerged hmatch
              rw [hshape]
              exact ⟨hpair.1, hpair.2⟩
            · have hsw' : (strategy == "server-wins") = false := by simpa using hsw
              by_cases htm : (strategy == "try-shallow-merge") = true
              · by_cases hcf : (conflictFields pc (kvErase remote "deleted")).isEmpty = true
                · have hmerged : kvGet (shallowMerged pc li (kvErase remote "deleted")) "id"
                      ≠ some rid := by
                    rw [shallowMerged_id pc li (kvErase remote "deleted")
                      (by rw [hid_li, hre]), hre]
                    exact hrid
                  have hshape : (pullStepBody strategy stateKey items0 pendingRemoval freshId
                        acc remote).nextItems
                      = acc.nextItems.map (fun i =>
                          if kvGet i "_localId" == kvGet li "_localId"
                          then shallowMerged pc li (kvErase remote "deleted")
                          else i) := by
                    unfold pullStepBody
                    simp only [hskip', Bool.false_eq_true, if_false, hdelf]
                    rw [hlk]
                    simp only
                    rw [hfind]
                    simp only [hcw', hsw', Bool.false_eq_true, if_false, htm,
                      eq_self_iff_true, if_true, hcf, Bool.not_true]
                  have hpair := rid_filter_map acc.nextItems items0 rid
                    (fun i => kvGet i "_localId" == kvGet li "_localId")
                    (shallowMerged pc li (kvErase remote "deleted"))
                    hfil hA hmerged hmatch
                  rw [hshape]
                  exact ⟨hpair.1, hpair.2⟩
                · have hcf' : (conflictFields pc (kvErase remote "deleted")).isEmpty
                      = false := by
                    simpa using hcf
                  have hshape : (pullStepBody strategy stateKey items0 pendingRemoval freshId
                        acc remote).nextItems = acc.nextItems := by
                    unfold pullStepBody
                    simp only [hskip', Bool.false_eq_true, if_false, hdelf]
                    rw [hlk]
                    simp only
                    rw [hfind]
                    simp only [hcw', hsw', Bool.false_eq_true, if_false, htm,
                      eq_self_iff_true, if_true, hcf', Bool.not_false]
                  rw [hshape]
                  exact ⟨hfil, hA⟩
              · have htm' : (strategy == "try-shallow-merge") = false := by simpa using htm
                have hshape : pullStepBody strategy stateKey items0 pendingRemoval freshId acc
                    remote = acc := by
                  unfold pullStepBody
                  simp only [hskip', Bool.false_eq_true, if_false, hdelf]
                  rw [hlk]
                  simp only
                  rw [hfind]
                  simp only [hcw', hsw', htm', Bool.false_eq_true, if_false]
                rw [hshape]
                exact ⟨hfil, hA⟩
        | none =>
          have hmerged : kvGet (kvSpread li (kvErase remote "deleted")) "id" ≠ some rid := by
            rw [spread_local_id li (kvErase remote "deleted") (by rw [hid_li, hre]), hre]
            exact hrid
          have hshape : (pullStepBody strategy stateKey items0 pendingRemoval freshId acc
                remote).nextItems
              = acc.nextItems.map (fun i =>
                  if kvGet i "_localId" == kvGet li "_localId"
                  then kvSpread li (kvErase remote "deleted")
                  else i) := by
            unfold pullStepBody
            simp only [hskip', Bool.false_eq_true, if_false, hdelf]
            rw [hlk]
            simp only
            rw [hfind]
          have hpair := rid_filter_map acc.nextItems items0 rid
            (fun i => kvGet i "_localId" == kvGet li "_localId")
            (kvSpread li (kvErase remote "deleted"))
            hfil hA hmerged hmatch
          rw [hshape]
          exact ⟨hpair.1, hpair.2⟩
      | none =>
        have hnew : ridPred rid (kvSpread (kvErase remote "deleted")
            [("_localId", Val.vstr (freshId acc.freshCount))]) = false := by
          unfold ridPred
          rw [spread_localId_tag_id, hre]
          simpa [beq_eq_false_iff_ne] using hrid
        have hshape : (pullStepBody strategy stateKey items0 pendingRemoval freshId acc
              remote).nextItems
            = acc.nextItems ++ [kvSpread (kvErase remote "deleted")
                [("_localId", Val.vstr (freshId acc.freshCount))]] := by
          unfold pullStepBody
          simp only [hskip', Bool.false_eq_true, if_false, hdelf]
          rw [hlk]
        rw [hshape]
        constructor
        · rw [List.filter_append]
          have hdrop : ([kvSpread (kvErase remote "deleted")
              [("_localId", Val.vstr (freshId acc.freshCount))]].filter (ridPred rid))
              = [] := by
            simp [List.filter_cons, hnew]
          rw [hdrop, List.append_nil]
          exact hfil
        · intro x hx hid
          rcases List.mem_append.mp hx with hx' | hx'
          · exact hA x hx' hid
          · have hx'' : x = kvSpread (kvErase remote "deleted")
                [("_localId", Val.vstr (freshId acc.freshCount))] := by
              simpa using hx'
            exfalso
            apply hrid
            rw [← hid, hx'', spread_localId_tag_id, hre]

/-- The full pull-loop step (watermark update included) preserves the
pending-Remove entries the same way. -/
theorem pullStep_rid (strategy stateKey : String) (items0 : List Obj)
    (pendingRemoval : List (Option Val)) (freshId : Nat → String) (rid : Val)
    (hrem : pendingRemoval.contains (some rid) = true)
    (hnodup : items0.Pairwise (fun a b => kvGet a "_localId" ≠ kvGet b "_localId"))
    (acc : PullAcc) (remote : Obj)
    (hfil : acc.nextItems.filter (ridPred rid) = items0.filter (ridPred rid))
    (hA : ∀ x ∈ acc.nextItems, kvGet x "id" = some rid → x ∈ items0) :
    ((pullStep strategy stateKey items0 pendingRemoval freshId acc remote).nextItems.filter
        (ridPred rid) = items0.filter (ridPred rid))
      ∧ ∀ x ∈ (pullStep strategy stateKey items0 pendingRemoval freshId
          acc remote).nextItems, kvGet x "id" = some rid → x ∈ items0 := by
  unfold pullStep
  exact pullStepBody_rid strategy stateKey items0 pendingRemoval freshId rid hrem hnodup
    { acc with newest := bumpNewest acc.newest remote } remote hfil hA

/-- The whole pull fold preserves the pending-Remove entries. -/
theorem pull_foldl_rid (strategy stateKey : String) (items0 : List Obj)
    (pendingRemoval : List (Option Val)) (freshId : Nat → String) (rid : Val)
    (hrem : pendingRemoval.contains (some rid) = true)
    (hnodup : items0.Pairwise (fun a b => kvGet a "_localId" ≠ kvGet b "_localId"))
    (l : List Obj) (acc : PullAcc)
    (hfil : acc.nextItems.filter (ridPred rid) = items0.filter (ridPred rid))
    (hA : ∀ x ∈ acc.nextItems, kvGet x "id" = some rid → x ∈ items0) :
    ((l.foldl (pullStep strategy stateKey items0 pendingRemoval freshId) acc).nextItems.filter
        (ridPred rid) = items0.filter (ridPred rid))
      ∧ ∀ x ∈ (l.foldl (pullStep strategy stateKey items0 pendingRemoval freshId)
          acc).nextItems, kvGet x "id" = some rid → x ∈ items0 := by
  induction l generalizing acc hfil hA with
  | nil => exact ⟨hfil, hA⟩
  | cons r rs ih =>
    simp only [List.foldl_cons]
    have hstep := pullStep_rid strategy stateKey items0 pendingRemoval freshId rid hrem
      hnodup acc r hfil hA
    exact ih (pullStep strategy stateKey items0 pendingRemoval freshId acc r) hstep.1 hstep.2

/-- C2: the resurrection guard.  Whenever the queue holds a pending Remove
for a server id, a pull of that collection leaves the local entries carrying
that id exactly as they were: no batch record with that id is merged into
them or re-inserted, even when the server still reports the record as live
(under the store identity invariant that local records carry pairwise
distinct `_localId`s). -/
theorem pending_remove_blocks_pull (strategy stateKey : String) (freshId : Nat → String)
    (st : PullState) (serverData : List Obj) (rid : Val)
    (hrem : (pendingRemovalIds st.pendingChanges stateKey).contains (some rid) = true)
    (hnodup : st.items.Pairwise (fun a b => kvGet a "_localId" ≠ kvGet b "_localId")) :
    (pull strategy stateKey freshId st serverData).items.filter (ridPred rid)
      = st.items.filter (ridPred rid) := by
  unfold pull
  by_cases he : serverData.isEmpty = true
  · simp [he]
  · have he' : serverData.isEmpty = false := by simpa using he
    simp only [he', Bool.false_eq_true, if_false]
    have h := pull_foldl_rid strategy stateKey st.items
      (pendingRemovalIds st.pendingChanges stateKey) freshId rid hrem hnodup serverData
      { nextItems := st.items, pendingChanges := st.pendingChanges,
        conflicts := st.conflicts, newest := (kvGet st.lastPulled stateKey).getD 0,
        freshCount := 0 } rfl (fun x hx _ => hx)
    exact h.1

/-- The guard at a concrete state: a pending Remove for id 1 is queued, the
batch still reports id 1 as live, and the pull leaves the id-1 entries
untouched. -/
theorem pending_remove_blocks_pull_witness :
    ((pendingRemovalIds demoRemoveState.pendingChanges "items").contains
        (some (Val.vnum 1)) = true)
      ∧ demoRemoveState.items.Pairwise
          (fun a b => kvGet a "_localId" ≠ kvGet b "_localId")
      ∧ (pull "server-wins" "items" (fun _ => "F") demoRemoveState
            demoLiveBatch).items.filter (ridPred (Val.vnum 1))
          = demoRemoveState.items.filter (ridPred (Val.vnum 1)) :=
  ⟨by decide, by decide,
    pending_remove_blocks_pull "server-wins" "items" (fun _ => "F") demoRemoveState
      demoLiveBatch (Val.vnum 1) (by decide) (by decide)⟩

end Zync
